import Mathlib

/-!
Formal model of `src/main.py` (ai-resume-matcher): a Flask service that
extracts text from an uploaded PDF, derives an MD5 cache key over the
concatenation of the resume text and the job description, consults a Redis
cache, and on a miss issues one or two model-completion calls whose JSON
output is cleaned of Markdown fences and parsed defensively.

Python strings are modelled as Lean `String` (sequences of Unicode scalar
values), machine integers as `Nat`/`Int` with explicit reduction modulo
`2 ^ 32` where the MD5 arithmetic wraps.  External collaborators (the PDF
text extractor, the completion service, the Redis store) are modelled as
oracle values supplied to the pipeline; the pipeline itself is a pure
function of those oracles.
-/

namespace ResumeMatcher

/-! ## Python string primitives used by `main.py` -/

/-- Python slicing `s[:n]`, counting code points. -/
def pyTake (n : Nat) (s : String) : String := ⟨s.data.take n⟩

/-- Characters matched by Python's `\s` in `str` patterns, which is also the
set stripped by `str.strip()`: the six ASCII whitespace characters plus the
Unicode whitespace code points. -/
def wsChar (c : Char) : Bool :=
  c = ' ' || c = '\t' || c = '\n' || c = '\r' || c = '\x0b' || c = '\x0c' ||
  c = '\x1c' || c = '\x1d' || c = '\x1e' || c = '\x1f' || c = '\x85' ||
  c = '\xa0' || c = '\u1680' || ('\u2000' ≤ c && c ≤ '\u200A') ||
  c = '\u2028' || c = '\u2029' || c = '\u202F' || c = '\u205F' || c = '\u3000'

/-- One pass of `re.sub(r'\s+', ' ', text)` over the characters: `inRun`
records whether the scanner is inside a whitespace run that has already
emitted its single replacement space. -/
def collapseWs (inRun : Bool) : List Char → List Char
  | [] => []
  | c :: cs =>
    if wsChar c then
      if inRun then collapseWs true cs else ' ' :: collapseWs true cs
    else c :: collapseWs false cs

/-- Python `str.lstrip()`. -/
def pyLstrip (l : List Char) : List Char := l.dropWhile wsChar

/-- Python `str.rstrip()`. -/
def pyRstrip (l : List Char) : List Char := (l.reverse.dropWhile wsChar).reverse

/-- Python `str.strip()`. -/
def pyStrip (l : List Char) : List Char := pyRstrip (pyLstrip l)

/-- Line 41 of `main.py`: `re.sub(r'\s+', ' ', text).strip()`, the whitespace
normalisation applied to the concatenated page texts. -/
def normalize_ws (s : String) : String := ⟨pyStrip (collapseWs false s.data)⟩

/-- Scanner for Python `str.replace(old, new)`: leftmost-first,
non-overlapping.  The fuel only bounds the recursion: one unit is spent per
step while at least one character is consumed, so the fuel `pyReplace`
supplies (the input length) never runs out before the input does and the
fuel-exhausted branch is unreachable for a non-empty pattern. -/
def replaceCore (pat repl : List Char) : Nat → List Char → List Char
  | _, [] => []
  | 0, l => l
  | fuel + 1, c :: cs =>
    if pat.isPrefixOf (c :: cs) then
      repl ++ replaceCore pat repl fuel ((c :: cs).drop pat.length)
    else
      c :: replaceCore pat repl fuel cs

/-- Python `s.replace(old, new)`: every non-overlapping occurrence of `old`,
scanned left to right, is replaced by `new`.  Python's behaviour for an empty
`old` (interleaving `new` between all characters) is not modelled; the two
call sites in `main.py` use the non-empty patterns of lines 113 and 134. -/
def pyReplace (s pat repl : String) : String :=
  if pat.data.isEmpty then s
  else ⟨replaceCore pat.data repl.data s.data.length s.data⟩

/-- Lines 113 and 134 of `main.py`: `.replace("```json", "").replace("```", "")`,
the Markdown-fence cleaning applied to raw model output before `json.loads`. -/
def pyClean (s : String) : String := pyReplace (pyReplace s "```json" "") "```" ""

/-! ## Cache-key derivation

Lines 44–47 of `main.py`:
`hashlib.md5((text + jd_text).encode('utf-8')).hexdigest()`. -/

/-- UTF-8 encoding of one Unicode scalar value, as byte values. -/
def utf8Bytes (c : Char) : List Nat :=
  let n := c.toNat
  if n < 128 then [n]
  else if n < 2048 then [192 + n / 64, 128 + n % 64]
  else if n < 65536 then [224 + n / 4096, 128 + n / 64 % 64, 128 + n % 64]
  else [240 + n / 262144, 128 + n / 4096 % 64, 128 + n / 64 % 64, 128 + n % 64]

/-- Python `s.encode('utf-8')` as a list of byte values. -/
def utf8Encode (s : String) : List Nat := (s.data.map utf8Bytes).flatten

/-- Reduction modulo `2 ^ 32`, the wrap-around of MD5's word arithmetic. -/
def w32 (n : Nat) : Nat := n % 4294967296

/-- Left rotation of a 32-bit word (arguments already below `2 ^ 32`). -/
def rotl32 (x s : Nat) : Nat := w32 (x * 2 ^ s) + x / 2 ^ (32 - s)

/-- MD5 mixer F; the complement of a word `x < 2 ^ 32` is `4294967295 - x`. -/
def md5F (b c d : Nat) : Nat := Nat.lor (Nat.land b c) (Nat.land (4294967295 - b) d)

/-- MD5 mixer G. -/
def md5G (b c d : Nat) : Nat := Nat.lor (Nat.land b d) (Nat.land c (4294967295 - d))

/-- MD5 mixer H. -/
def md5H (b c d : Nat) : Nat := Nat.xor b (Nat.xor c d)

/-- MD5 mixer I. -/
def md5I (b c d : Nat) : Nat := Nat.xor c (Nat.lor b (4294967295 - d))

/-- The MD5 sine-derived constant table (RFC 1321). -/
def md5K : List Nat :=
  [0xd76aa478, 0xe8c7b756, 0x242070db, 0xc1bdceee,
   0xf57c0faf, 0x4787c62a, 0xa8304613, 0xfd469501,
   0x698098d8, 0x8b44f7af, 0xffff5bb1, 0x895cd7be,
   0x6b901122, 0xfd987193, 0xa679438e, 0x49b40821,
   0xf61e2562, 0xc040b340, 0x265e5a51, 0xe9b6c7aa,
   0xd62f105d, 0x02441453, 0xd8a1e681, 0xe7d3fbc8,
   0x21e1cde6, 0xc33707d6, 0xf4d50d87, 0x455a14ed,
   0xa9e3e905, 0xfcefa3f8, 0x676f02d9, 0x8d2a4c8a,
   0xfffa3942, 0x8771f681, 0x6d9d6122, 0xfde5380c,
   0xa4beea44, 0x4bdecfa9, 0xf6bb4b60, 0xbebfbc70,
   0x289b7ec6, 0xeaa127fa, 0xd4ef3085, 0x04881d05,
   0xd9d4d039, 0xe6db99e5, 0x1fa27cf8, 0xc4ac5665,
   0xf4292244, 0x432aff97, 0xab9423a7, 0xfc93a039,
   0x655b59c3, 0x8f0ccc92, 0xffeff47d, 0x85845dd1,
   0x6fa87e4f, 0xfe2ce6e0, 0xa3014314, 0x4e0811a1,
   0xf7537e82, 0xbd3af235, 0x2ad7d2bb, 0xeb86d391]

/-- The MD5 per-round left-rotation amounts (RFC 1321). -/
def md5S : List Nat :=
  [7, 12, 17, 22, 7, 12, 17, 22, 7, 12, 17, 22, 7, 12, 17, 22,
   5, 9, 14, 20, 5, 9, 14, 20, 5, 9, 14, 20, 5, 9, 14, 20,
   4, 11, 16, 23, 4, 11, 16, 23, 4, 11, 16, 23, 4, 11, 16, 23,
   6, 10, 15, 21, 6, 10, 15, 21, 6, 10, 15, 21, 6, 10, 15, 21]

/-- One MD5 round step `i` on state `(a, b, c, d)` with message words `M`. -/
def md5Mix (M : List Nat) (st : Nat × Nat × Nat × Nat) (i : Nat) :
    Nat × Nat × Nat × Nat :=
  let a := st.1
  let b := st.2.1
  let c := st.2.2.1
  let d := st.2.2.2
  let fg : Nat × Nat :=
    if i < 16 then (md5F b c d, i)
    else if i < 32 then (md5G b c d, (5 * i + 1) % 16)
    else if i < 48 then (md5H b c d, (3 * i + 5) % 16)
    else (md5I b c d, (7 * i) % 16)
  let e := w32 (fg.1 + a + md5K.getD i 0 + M.getD fg.2 0)
  (d, w32 (b + rotl32 e (md5S.getD i 0)), b, c)

/-- Process one 64-byte chunk: 16 little-endian words, 64 mixing rounds, and
the feed-forward addition of the incoming state. -/
def md5Chunk (st : Nat × Nat × Nat × Nat) (chunk : List Nat) :
    Nat × Nat × Nat × Nat :=
  let M := (List.range 16).map fun j =>
    chunk.getD (4 * j) 0 + 256 * chunk.getD (4 * j + 1) 0 +
      65536 * chunk.getD (4 * j + 2) 0 + 16777216 * chunk.getD (4 * j + 3) 0
  let r := (List.range 64).foldl (md5Mix M) st
  (w32 (st.1 + r.1), w32 (st.2.1 + r.2.1),
   w32 (st.2.2.1 + r.2.2.1), w32 (st.2.2.2 + r.2.2.2))

/-- The `count` low-order bytes of `n`, little endian. -/
def leBytes (count n : Nat) : List Nat :=
  match count with
  | 0 => []
  | k + 1 => n % 256 :: leBytes k (n / 256)

/-- MD5 padding: a `0x80` byte, zeros to 56 mod 64, then the bit length as a
64-bit little-endian quantity. -/
def md5Pad (msg : List Nat) : List Nat :=
  msg ++ 128 :: List.replicate ((119 - msg.length % 64) % 64) 0 ++
    leBytes 8 (8 * msg.length % 18446744073709551616)

/-- Split a byte list into 64-byte chunks (the fuel bounds the recursion and
is instantiated with the list length, which always suffices). -/
def chunksOf64 : Nat → List Nat → List (List Nat)
  | 0, _ => []
  | _, [] => []
  | fuel + 1, l => l.take 64 :: chunksOf64 fuel (l.drop 64)

/-- The MD5 state after absorbing a whole message. -/
def md5State (msg : List Nat) : Nat × Nat × Nat × Nat :=
  let padded := md5Pad msg
  (chunksOf64 padded.length padded).foldl md5Chunk
    (1732584193, 4023233417, 2562383102, 271733878)

/-- Lowercase hexadecimal digit. -/
def hexDigitChar (n : Nat) : Char := "0123456789abcdef".data.getD n '0'

/-- Two lowercase hex characters of a byte. -/
def byteHex (b : Nat) : List Char := [hexDigitChar (b / 16), hexDigitChar (b % 16)]

/-- `hashlib.md5(msg).hexdigest()`: the 16 digest bytes (each state word
little endian) in lowercase hex. -/
def md5Hex (msg : List Nat) : String :=
  let st := md5State msg
  ⟨((leBytes 4 st.1 ++ leBytes 4 st.2.1 ++ leBytes 4 st.2.2.1 ++
      leBytes 4 st.2.2.2).map byteHex).flatten⟩

/-- Lines 44–47 of `main.py`: `get_cache_key(text, jd_text)` hashes the
concatenation `text + jd_text`. -/
def get_cache_key (text jd_text : String) : String :=
  md5Hex (utf8Encode (text ++ jd_text))

/-! ## JSON values and the `json.loads` / `json.dumps` model

Restrictions relative to CPython's `json` module, none of which matter to the
fence-cleaning and fallback behaviour under study: numbers are modelled over
the integer fragment (a fraction or exponent part makes the parse fail, where
Python would build a float, and the constants `NaN` and `Infinity` are
likewise rejected); object members are kept as the parsed association list
(Python's `dict` keeps the last binding of a duplicated key); a lone
surrogate `\uXXXX` escape fails (Python builds a surrogate-carrying `str`,
which a Lean `String` of scalar values cannot hold); and `json_dumps` writes
non-ASCII characters verbatim where Python's default `ensure_ascii=True`
would escape them — the serialised form is only ever read back by
`json_loads`, and every escape it does use is one Python also accepts.  The
parser's recursion fuel is instantiated so generously that it can only run
out on nesting deeper than half the input length, which no input reaches;
CPython itself fails on deeply nested documents with a recursion error. -/

inductive Json where
  | null : Json
  | bool (b : Bool) : Json
  | num (n : Int) : Json
  | str (s : String) : Json
  | arr (elems : List Json) : Json
  | obj (members : List (String × Json)) : Json

/-- JSON inter-token whitespace (space, tab, newline, carriage return). -/
def jsonWs (c : Char) : Bool := c = ' ' || c = '\t' || c = '\n' || c = '\r'

/-- Drop JSON inter-token whitespace. -/
def skipWs (l : List Char) : List Char := l.dropWhile jsonWs

/-- Value of a hexadecimal digit character. -/
def hexVal (c : Char) : Option Nat :=
  if '0' ≤ c && c ≤ '9' then some (c.toNat - 48)
  else if 'a' ≤ c && c ≤ 'f' then some (c.toNat - 87)
  else if 'A' ≤ c && c ≤ 'F' then some (c.toNat - 55)
  else none

/-- Value of a four-digit hexadecimal escape. -/
def hex4 (h1 h2 h3 h4 : Char) : Option Nat := do
  let a ← hexVal h1
  let b ← hexVal h2
  let c ← hexVal h3
  let d ← hexVal h4
  pure (4096 * a + 256 * b + 16 * c + d)

/-- The characters reached by JSON's simple backslash escapes. -/
def simpleEscape (e : Char) : Option Char :=
  if e = '"' then some '"'
  else if e = '\\' then some '\\'
  else if e = '/' then some '/'
  else if e = 'b' then some '\x08'
  else if e = 'f' then some '\x0c'
  else if e = 'n' then some '\n'
  else if e = 'r' then some '\r'
  else if e = 't' then some '\t'
  else none

/-- Head and tail of a non-empty list. -/
def headTail : List Char → Option (Char × List Char)
  | [] => none
  | c :: r => some (c, r)

/-- Decode one `\uXXXX` quad after the `\u`: its value and the rest. -/
def decodeU : List Char → Option (Nat × List Char)
  | h1 :: h2 :: h3 :: h4 :: r => (hex4 h1 h2 h3 h4).map fun n => (n, r)
  | _ => none

/-- Decode a `\u` escape after the `\u`, combining a surrogate pair into
its scalar value; a lone surrogate fails (see the module comment above). -/
def decodeUEscape (l : List Char) : Option (Char × List Char) :=
  match decodeU l with
  | none => none
  | some (n, r) =>
    if n < 55296 || 57343 < n then some (Char.ofNat n, r)
    else if n ≤ 56319 then
      match r with
      | b :: u :: r2 =>
        if b = '\\' && u = 'u' then
          match decodeU r2 with
          | none => none
          | some (m, r3) =>
            if 56320 ≤ m && m ≤ 57343 then
              some (Char.ofNat (65536 + (n - 55296) * 1024 + (m - 56320)), r3)
            else none
        else none
      | _ => none
    else none

/-- Decode one escape sequence after the backslash: the decoded character
and the rest of the input. -/
def decodeEscape : List Char → Option (Char × List Char)
  | [] => none
  | e :: r =>
    if e = 'u' then decodeUEscape r
    else (simpleEscape e).map fun ec => (ec, r)

/-- Scan a JSON string body after its opening quote: the decoded characters
and the input after the closing quote.  The fuel only bounds the recursion:
every step consumes at least one input character, so the input length
supplied at the call site never runs out before the input does. -/
def parseStringRest : Nat → List Char → Option (List Char × List Char)
  | 0, _ => none
  | _, [] => none
  | fuel + 1, c :: r =>
    if c = '"' then some ([], r)
    else if c = '\\' then
      (decodeEscape r).bind fun er =>
        (parseStringRest fuel er.2).map fun p => (er.1 :: p.1, p.2)
    else if c.toNat < 32 then none
    else (parseStringRest fuel r).map fun p => (c :: p.1, p.2)

/-- Decimal digit character. -/
def isDigitChar (c : Char) : Bool := '0' ≤ c && c ≤ '9'

/-- Value of a run of decimal digit characters. -/
def digitsVal (ds : List Char) : Nat := ds.foldl (fun a c => 10 * a + (c.toNat - 48)) 0

/-- A digit or a fraction/exponent marker follows a leading `0`. -/
def numContinues : List Char → Bool
  | [] => false
  | d :: _ => isDigitChar d || d = '.' || d = 'e' || d = 'E'

/-- A fraction or exponent marker follows the integer digits. -/
def floatContinues : List Char → Bool
  | [] => false
  | d :: _ => d = '.' || d = 'e' || d = 'E'

/-- Parse the digit part of a JSON number (no leading zeros; a following
fraction or exponent part means Python would build a float, which the model
rejects — see the module comment above). -/
def parseNatPart (l : List Char) : Option (Nat × List Char) :=
  (headTail l).bind fun cr =>
    if cr.1 = '0' then
      if numContinues cr.2 then none else some (0, cr.2)
    else if isDigitChar cr.1 then
      if floatContinues ((cr.1 :: cr.2).dropWhile isDigitChar) then none
      else some (digitsVal ((cr.1 :: cr.2).takeWhile isDigitChar),
        (cr.1 :: cr.2).dropWhile isDigitChar)
    else none

/-- Parse a JSON number (integer fragment). -/
def parseNumber (l : List Char) : Option (Json × List Char) :=
  (headTail l).bind fun cr =>
    if cr.1 = '-' then
      (parseNatPart cr.2).map fun p => (Json.num (-(p.1 : Int)), p.2)
    else (parseNatPart l).map fun p => (Json.num (p.1 : Int), p.2)

mutual

/-- Parse one JSON value after optional leading whitespace, dispatching on
the first character.  The fuel bounds the recursion; `json_loads` supplies
more than any input can consume. -/
def parseValue : Nat → List Char → Option (Json × List Char)
  | 0, _ => none
  | fuel + 1, l =>
    (headTail (skipWs l)).bind fun cr =>
      let c := cr.1
      let r := cr.2
      if c = 'n' then
        if r.take 3 = ['u', 'l', 'l'] then some (Json.null, r.drop 3) else none
      else if c = 't' then
        if r.take 3 = ['r', 'u', 'e'] then some (Json.bool true, r.drop 3) else none
      else if c = 'f' then
        if r.take 4 = ['a', 'l', 's', 'e'] then some (Json.bool false, r.drop 4)
        else none
      else if c = '"' then
        (parseStringRest r.length r).map fun p => (Json.str ⟨p.1⟩, p.2)
      else if c = '[' then
        (headTail (skipWs r)).bind fun cr2 =>
          if cr2.1 = ']' then some (Json.arr [], cr2.2)
          else (parseElems fuel (cr2.1 :: cr2.2)).map fun p => (Json.arr p.1, p.2)
      else if c = '\x7b' then
        (headTail (skipWs r)).bind fun cr2 =>
          if cr2.1 = '\x7d' then some (Json.obj [], cr2.2)
          else (parseMembers fuel (cr2.1 :: cr2.2)).map fun p => (Json.obj p.1, p.2)
      else parseNumber (c :: r)

/-- Parse the elements of a non-empty array, up to and past `]`. -/
def parseElems : Nat → List Char → Option (List Json × List Char)
  | 0, _ => none
  | fuel + 1, l =>
    (parseValue fuel l).bind fun vr =>
      (headTail (skipWs vr.2)).bind fun cr =>
        if cr.1 = ',' then (parseElems fuel cr.2).map fun p => (vr.1 :: p.1, p.2)
        else if cr.1 = ']' then some ([vr.1], cr.2)
        else none

/-- Parse the members of a non-empty object, up to and past the closing
brace. -/
def parseMembers : Nat → List Char → Option (List (String × Json) × List Char)
  | 0, _ => none
  | fuel + 1, l =>
    (headTail (skipWs l)).bind fun cr =>
      if cr.1 = '"' then
        (parseStringRest cr.2.length cr.2).bind fun kr =>
          (headTail (skipWs kr.2)).bind fun cr2 =>
            if cr2.1 = ':' then
              (parseValue fuel cr2.2).bind fun vr =>
                (headTail (skipWs vr.2)).bind fun cr3 =>
                  if cr3.1 = ',' then
                    (parseMembers fuel cr3.2).map fun p =>
                      ((⟨kr.1⟩, vr.1) :: p.1, p.2)
                  else if cr3.1 = '\x7d' then some ([(⟨kr.1⟩, vr.1)], cr3.2)
                  else none
            else none
      else none

end

/-- `json.loads`: parse a complete document, allowing surrounding
whitespace. -/
def json_loads (s : String) : Option Json :=
  match parseValue (2 * s.data.length + 2) s.data with
  | some (v, rest) => if skipWs rest = [] then some v else none
  | none => none

/-- Serialisation of one string character inside `json.dumps` output: the
short escapes of Python's escape table, `\u00XX` for the remaining control
characters, and the character itself otherwise (see the module comment above
on `ensure_ascii`). -/
def escChar (c : Char) : List Char :=
  if c = '"' then ['\\', '"']
  else if c = '\\' then ['\\', '\\']
  else if c = '\n' then ['\\', 'n']
  else if c = '\r' then ['\\', 'r']
  else if c = '\t' then ['\\', 't']
  else if c = '\x08' then ['\\', 'b']
  else if c = '\x0c' then ['\\', 'f']
  else if c.toNat < 32 then
    ['\\', 'u', '0', '0', hexDigitChar (c.toNat / 16), hexDigitChar (c.toNat % 16)]
  else [c]

/-- A JSON string literal. -/
def dumpsString (s : String) : List Char := '"' :: ((s.data.map escChar).flatten ++ ['"'])

/-- The decimal digit characters of a natural number. -/
def natDigits (n : Nat) : List Char :=
  if n < 10 then [Char.ofNat (48 + n)]
  else natDigits (n / 10) ++ [Char.ofNat (48 + n % 10)]
termination_by n
decreasing_by exact Nat.div_lt_self (by omega) (by omega)

/-- Python's decimal rendering of an int. -/
def intDigits (n : Int) : List Char :=
  if n < 0 then '-' :: natDigits n.natAbs else natDigits n.toNat

mutual

/-- `json.dumps` with its default separators (`", "` and `": "`). -/
def dumpsVal : Json → List Char
  | Json.null => ['n', 'u', 'l', 'l']
  | Json.bool true => ['t', 'r', 'u', 'e']
  | Json.bool false => ['f', 'a', 'l', 's', 'e']
  | Json.num n => intDigits n
  | Json.str s => dumpsString s
  | Json.arr [] => ['[', ']']
  | Json.arr (x :: xs) => '[' :: (dumpsVal x ++ dumpsElems xs ++ [']'])
  | Json.obj [] => ['\x7b', '\x7d']
  | Json.obj (kv :: kvs) => '\x7b' :: (dumpsMember kv ++ dumpsMembers kvs ++ ['\x7d'])

/-- Trailing array elements, each preceded by `", "`. -/
def dumpsElems : List Json → List Char
  | [] => []
  | x :: xs => ',' :: ' ' :: (dumpsVal x ++ dumpsElems xs)

/-- One object member, `key: value`. -/
def dumpsMember : String × Json → List Char
  | (k, v) => dumpsString k ++ ':' :: ' ' :: dumpsVal v

/-- Trailing object members, each preceded by `", "`. -/
def dumpsMembers : List (String × Json) → List Char
  | [] => []
  | kv :: kvs => ',' :: ' ' :: (dumpsMember kv ++ dumpsMembers kvs)

end

/-- `json.dumps` as a string. -/
def json_dumps (v : Json) : String := ⟨dumpsVal v⟩

mutual

/-- Fuel sufficient for `parseValue` to parse the output of `dumpsVal`. -/
def jfuel : Json → Nat
  | Json.arr (x :: xs) => 1 + jfuelElems (x :: xs)
  | Json.obj (kv :: kvs) => 1 + jfuelMembers (kv :: kvs)
  | _ => 1

/-- Fuel needed by `parseElems`. -/
def jfuelElems : List Json → Nat
  | [] => 0
  | x :: xs => 1 + jfuel x + jfuelElems xs

/-- Fuel needed by `parseMembers`. -/
def jfuelMembers : List (String × Json) → Nat
  | [] => 0
  | (_, v) :: kvs => 1 + jfuel v + jfuelMembers kvs

end

/-! ## The two prompts (lines 95–106 and 121–131 of `main.py`)

The f-strings are triple quoted inside an indented block, so every line
carries its indentation, including the blank lines and the line holding the
closing quotes. -/

/-- Text of the extraction prompt before the resume slice. -/
def extractPromptPre : String := "\n    请从以下简历文本中提取关键信息。\n    简历内容: "

/-- Text of the extraction prompt after the resume slice. -/
def extractPromptPost : String :=
  "... (截断以防过长)\n    \n    要求输出为严格的 JSON 格式，不包含 Markdown 标记。包含以下字段：\n    - name (姓名)\n    - phone (电话)\n    - email (邮箱)\n    - education (学历简述)\n    - experience_years (工作年限，数字)\n    - skills (技能列表)\n    "

/-- The field-extraction prompt, embedding `resume_text[:2500]`. -/
def mkExtractPrompt (resume_text : String) : String :=
  extractPromptPre ++ pyTake 2500 resume_text ++ extractPromptPost

/-- Text of the matching prompt before the resume slice. -/
def matchPromptPre : String := "\n        我是招聘官。请对比简历和岗位描述。\n        简历内容: "

/-- Text of the matching prompt between the two slices. -/
def matchPromptMid : String := "\n        岗位描述: "

/-- Text of the matching prompt after the job-description slice. -/
def matchPromptPost : String :=
  "\n        \n        请给出：\n        1. score (0-100的整数评分)\n        2. analysis (简短的匹配分析，不超过100字)\n        \n        输出为严格的 JSON 格式。\n        "

/-- The match-scoring prompt, embedding `resume_text[:2000]` and
`jd_text[:1000]`. -/
def mkMatchPrompt (resume_text jd_text : String) : String :=
  matchPromptPre ++ pyTake 2000 resume_text ++ matchPromptMid ++
    pyTake 1000 jd_text ++ matchPromptPost

/-! ## Defensive parsing of model output -/

/-- The extraction-side handling of raw model output (lines 110–116): when
`call_ai_service` returned `None`, the attribute access `None.replace` raises
inside the `try` and the bare `except` yields the fallback
`{"raw_text": None}`; otherwise the fences are cleaned and `json.loads`
attempted, any failure yielding `{"raw_text": <the raw output>}`. -/
def sanitize_extract (raw : Option String) : Json :=
  match raw with
  | none => Json.obj [("raw_text", Json.null)]
  | some s =>
    match json_loads (pyClean s) with
    | some v => v
    | none => Json.obj [("raw_text", Json.str s)]

/-- The matching-side handling of raw model output (lines 132–137), with the
fallback `{"score": 0, "analysis": "AI Parsing Error"}`. -/
def sanitize_match (raw : Option String) : Json :=
  match raw with
  | none => Json.obj [("score", Json.num 0), ("analysis", Json.str "AI Parsing Error")]
  | some s =>
    match json_loads (pyClean s) with
    | some v => v
    | none => Json.obj [("score", Json.num 0), ("analysis", Json.str "AI Parsing Error")]

/-! ## The Redis client and the pipeline -/

/-- A constructed Redis client (`redis.Redis(...)` at line 26 constructs
lazily, without touching the network).  Each command either returns or
raises: `redis-py` raises a connection error at command time when the
configured store is unreachable, and `main.py` wraps neither `get` nor
`setex` in a handler. -/
structure RedisConn where
  get : String → Except Unit (Option String)
  setex : String → Nat → String → Except Unit Unit

/-- A reachable store holding the pure key-value map `m`. -/
def mapConn (m : String → Option String) : RedisConn :=
  { get := fun k => Except.ok (m k), setex := fun _ _ _ => Except.ok () }

/-- A configured client whose store is unreachable at call time: every
command raises. -/
def unreachableConn : RedisConn :=
  { get := fun _ => Except.error (), setex := fun _ _ _ => Except.error () }

/-- Apply recorded `setex` writes to a pure map, oldest first. -/
def applyPuts (m : String → Option String) :
    List (String × Nat × String) → String → Option String
  | [] => m
  | (k, _, v) :: rest => applyPuts (fun q => if q = k then some v else m q) rest

/-- How a request fails after text extraction: an uncaught exception from a
Redis command, or an uncaught `json.loads` failure on a cache hit.  Either
escapes `analyze_resume` and Flask answers 500. -/
inductive PipelineError where
  | redisError : PipelineError
  | cacheDecodeError : PipelineError

/-- Steps 4–7 of `analyze_resume` (lines 94–150): the one or two model calls
with defensive parsing, response assembly, and the write-through.  The result
triple is the response value, the prompts sent to the completion service in
order, and the `setex` writes performed. -/
def analyze_miss (r_client : Option RedisConn) (ai : String → Option String)
    (resume_text jd_text cache_key : String) :
    Except PipelineError (Json × List String × List (String × Nat × String)) :=
  let extract_prompt := mkExtractPrompt resume_text
  let extracted_info := sanitize_extract (ai extract_prompt)
  let stepMatch : Json × List String :=
    if jd_text ≠ "" then
      (sanitize_match (ai (mkMatchPrompt resume_text jd_text)),
        [mkMatchPrompt resume_text jd_text])
    else (Json.obj [], [])
  let response_data := Json.obj
    [("resume_text_preview", Json.str (pyTake 200 resume_text)),
     ("extracted_info", extracted_info),
     ("match_result", stepMatch.1)]
  let prompts := extract_prompt :: stepMatch.2
  match r_client with
  | none => Except.ok (response_data, prompts, [])
  | some conn =>
    match conn.setex cache_key 3600 (json_dumps response_data) with
    | Except.error _ => Except.error PipelineError.redisError
    | Except.ok _ =>
      Except.ok (response_data, prompts, [(cache_key, 3600, json_dumps response_data)])

/-- Steps 3–7 of `analyze_resume` (lines 87–150), after PDF text extraction:
derive the cache key, consult the cache (`if r_client:` then
`if cached_data:` — Python truthiness, so a stored empty string is treated as
a miss), return the deserialised hit immediately, and otherwise run the miss
path.  `ai` gives the result of `call_ai_service` (lines 49–64) for each
prompt; `none` is its `None` on a failed or faulted call. -/
def analyze_core (r_client : Option RedisConn) (ai : String → Option String)
    (resume_text jd_text : String) :
    Except PipelineError (Json × List String × List (String × Nat × String)) :=
  let cache_key := get_cache_key resume_text jd_text
  match r_client with
  | none => analyze_miss none ai resume_text jd_text cache_key
  | some conn =>
    match conn.get cache_key with
    | Except.error _ => Except.error PipelineError.redisError
    | Except.ok (some cached) =>
      if cached = "" then analyze_miss (some conn) ai resume_text jd_text cache_key
      else
        match json_loads cached with
        | some v => Except.ok (v, [], [])
        | none => Except.error PipelineError.cacheDecodeError
    | Except.ok none => analyze_miss (some conn) ai resume_text jd_text cache_key

/-- Lines 32–42 of `main.py`: concatenate each page's extracted text — when
`page.extract_text()` returns a non-`None`, non-empty string (Python
truthiness) — followed by a newline, then normalise whitespace.  The page
list stands for a readable PDF; a `pdfplumber` failure raises before this
loop and is answered with a 400/500 at the route, outside this function. -/
def extract_text_from_pdf (pages : List (Option String)) : String :=
  let text := pages.foldl
    (fun acc p =>
      match p with
      | some page_text => if page_text ≠ "" then acc ++ page_text ++ "\n" else acc
      | none => acc) ""
  normalize_ws text

/-- First binding of a field in a JSON object (the pipeline's response
objects bind each key once). -/
def jsonField (j : Json) (k : String) : Option Json :=
  match j with
  | Json.obj kvs => (kvs.find? fun kv => kv.1 == k).map Prod.snd
  | _ => none

/-! ## Verification-side predicates (not part of the source model) -/

/-- Shape of fully collapsed text: every whitespace character is a plain
space, and no space is followed by further whitespace. -/
def collapsedB : List Char → Bool
  | [] => true
  | [c] => c = ' ' || !wsChar c
  | c :: d :: cs => (if c = ' ' then !wsChar d else !wsChar c) && collapsedB (d :: cs)

/-- The head, when there is one, is not whitespace. -/
def headNotWs : List Char → Bool
  | [] => true
  | c :: _ => !wsChar c

/-- What may follow a serialised value inside `json_dumps` output: the end of
the document, an element separator, or a closing bracket. -/
def delimAfter : List Char → Prop
  | [] => True
  | c :: _ => c = ',' ∨ c = ']' ∨ c = '\x7d'

/-! # Theorems -/

/-! ## C1: cache-key derivation -/

/-- C1 counterexample: the distinct pairs `("ab", "c")` and `("a", "bc")`
share the concatenation `"abc"` and hence the same MD5 cache key, refuting
the claim that key equality coincides with pairwise equality of the inputs
and, in particular, the clause that distinct pairs with equal concatenations
still get distinct keys. -/
theorem c1_distinct_pairs_same_key :
    get_cache_key "ab" "c" = get_cache_key "a" "bc" ∧ ¬("ab" = "a" ∧ "c" = "bc") := by
  have h : ("ab" ++ "c" : String) = "a" ++ "bc" := by decide
  exact ⟨by simp only [get_cache_key, h], by decide⟩

/-- C1 (amended): the cache key is a function of the concatenation
`text ++ jd_text` alone — any two pairs with equal concatenations receive
equal keys, and determinism for equal pairs is the special case; the claimed
converse fails because distinct pairs may concatenate to the same string. -/
theorem c1_key_of_concat_eq (d1 j1 d2 j2 : String) (h : d1 ++ j1 = d2 ++ j2) :
    get_cache_key d1 j1 = get_cache_key d2 j2 := by
  simp only [get_cache_key, h]

/-- C1 witness: the amended theorem applied at the concrete pairs
`("hello", " world")` and `("hello ", "world")`. -/
theorem c1_key_of_concat_eq_witness :
    get_cache_key "hello" " world" = get_cache_key "hello " "world" :=
  c1_key_of_concat_eq "hello" " world" "hello " "world" (by decide)

/-! ## C8: prompt truncation bounds -/

/-- C8: the extraction prompt embeds exactly the slice `resume_text[:2500]`,
of at most 2500 characters and a prefix of the document text, and the
matching prompt embeds exactly `resume_text[:2000]` and `jd_text[:1000]`, of
at most 2000 and 1000 characters and prefixes of their sources — for inputs
of any length. -/
theorem c8_truncation_bounds (t jd : String) :
    mkExtractPrompt t = extractPromptPre ++ pyTake 2500 t ++ extractPromptPost ∧
    (pyTake 2500 t).length ≤ 2500 ∧ (pyTake 2500 t).data <+: t.data ∧
    mkMatchPrompt t jd = matchPromptPre ++ pyTake 2000 t ++ matchPromptMid ++
      pyTake 1000 jd ++ matchPromptPost ∧
    (pyTake 2000 t).length ≤ 2000 ∧ (pyTake 2000 t).data <+: t.data ∧
    (pyTake 1000 jd).length ≤ 1000 ∧ (pyTake 1000 jd).data <+: jd.data := by
  have hlen : ∀ (n : Nat) (s : String), (pyTake n s).length ≤ n := by
    intro n s
    have h : (pyTake n s).length = (s.data.take n).length := rfl
    rw [h, List.length_take]
    omega
  exact ⟨rfl, hlen 2500 t, List.take_prefix _ _, rfl, hlen 2000 t,
    List.take_prefix _ _, hlen 1000 jd, List.take_prefix _ _⟩

/-! ## C6: whitespace normalisation -/

theorem wsChar_space : wsChar ' ' = true := by decide

theorem collapseWs_cons_ws_false {c : Char} (h : wsChar c = true) (cs : List Char) :
    collapseWs false (c :: cs) = ' ' :: collapseWs true cs := by
  simp [collapseWs, h]

theorem collapseWs_cons_ws_true {c : Char} (h : wsChar c = true) (cs : List Char) :
    collapseWs true (c :: cs) = collapseWs true cs := by
  simp [collapseWs, h]

theorem collapseWs_cons_not_ws {c : Char} (h : wsChar c = false) (b : Bool)
    (cs : List Char) : collapseWs b (c :: cs) = c :: collapseWs false cs := by
  cases b <;> simp [collapseWs, h]

theorem headNotWs_collapseWs_true (l : List Char) :
    headNotWs (collapseWs true l) = true := by
  induction l with
  | nil => rfl
  | cons c cs ih =>
    cases hw : wsChar c with
    | true =>
      rw [collapseWs_cons_ws_true hw]
      exact ih
    | false =>
      rw [collapseWs_cons_not_ws hw]
      simp [headNotWs, hw]

theorem collapsedB_collapseWs (b : Bool) (l : List Char) :
    collapsedB (collapseWs b l) = true := by
  induction l generalizing b with
  | nil => cases b <;> rfl
  | cons c cs ih =>
    cases hw : wsChar c with
    | false =>
      have hcs : ¬(c = ' ') := by
        intro he
        rw [he] at hw
        exact absurd hw (by decide)
      have h2 := ih false
      rw [collapseWs_cons_not_ws hw]
      cases hX : collapseWs false cs with
      | nil => simp [collapsedB, hcs, hw]
      | cons d ds =>
        rw [hX] at h2
        simp [collapsedB, hcs, hw, h2]
    | true =>
      cases b with
      | true =>
        rw [collapseWs_cons_ws_true hw]
        exact ih true
      | false =>
        rw [collapseWs_cons_ws_false hw]
        have h1 := headNotWs_collapseWs_true cs
        have h2 := ih true
        cases hX : collapseWs true cs with
        | nil => simp [collapsedB]
        | cons d ds =>
          rw [hX] at h1 h2
          simp only [headNotWs, Bool.not_eq_true'] at h1
          simp [collapsedB, h1, h2]

theorem collapsedB_tail {c : Char} {cs : List Char}
    (h : collapsedB (c :: cs) = true) : collapsedB cs = true := by
  cases cs with
  | nil => rfl
  | cons d ds =>
    simp only [collapsedB, Bool.and_eq_true] at h
    exact h.2

theorem collapseWs_of_collapsed (l : List Char) :
    (collapsedB l = true → collapseWs false l = l) ∧
    (collapsedB l = true → headNotWs l = true → collapseWs true l = l) := by
  induction l with
  | nil => exact ⟨fun _ => rfl, fun _ _ => rfl⟩
  | cons c cs ih =>
    constructor
    · intro h
      cases hw : wsChar c with
      | false =>
        rw [collapseWs_cons_not_ws hw]
        rw [ih.1 (collapsedB_tail h)]
      | true =>
        cases cs with
        | nil =>
          simp only [collapsedB, Bool.or_eq_true, decide_eq_true_eq,
            Bool.not_eq_true'] at h
          rcases h with h | h
          · subst h
            rfl
          · rw [hw] at h
            exact absurd h (by decide)
        | cons d ds =>
          simp only [collapsedB, Bool.and_eq_true] at h
          by_cases hc : c = ' '
          · subst hc
            rw [if_pos rfl] at h
            have hd : wsChar d = false := by
              simpa using h.1
            have hrest := ih.2 h.2 (by simp [headNotWs, hd])
            rw [collapseWs_cons_ws_false hw, hrest]
          · rw [if_neg hc] at h
            have := h.1
            rw [hw] at this
            exact absurd this (by decide)
    · intro h hh
      simp only [headNotWs, Bool.not_eq_true'] at hh
      rw [collapseWs_cons_not_ws hh]
      rw [ih.1 (collapsedB_tail h)]

theorem collapsedB_dropWhile (p : Char → Bool) (l : List Char)
    (h : collapsedB l = true) : collapsedB (l.dropWhile p) = true := by
  induction l with
  | nil => exact h
  | cons c cs ih =>
    cases hp : p c with
    | true =>
      rw [List.dropWhile_cons_of_pos hp]
      exact ih (collapsedB_tail h)
    | false =>
      rw [List.dropWhile_cons_of_neg (by simp [hp])]
      exact h

theorem headNotWs_dropWhile (l : List Char) :
    headNotWs (l.dropWhile wsChar) = true := by
  induction l with
  | nil => rfl
  | cons c cs ih =>
    cases hw : wsChar c with
    | true =>
      rw [List.dropWhile_cons_of_pos hw]
      exact ih
    | false =>
      rw [List.dropWhile_cons_of_neg (by simp [hw])]
      simp [headNotWs, hw]

theorem collapsedB_append_left (l m : List Char)
    (h : collapsedB (l ++ m) = true) : collapsedB l = true := by
  induction l with
  | nil => rfl
  | cons c l2 ih =>
    cases l2 with
    | nil =>
      cases m with
      | nil => simpa using h
      | cons d ds =>
        simp only [List.cons_append, List.nil_append, collapsedB,
          Bool.and_eq_true] at h
        by_cases hc : c = ' '
        · simp [collapsedB, hc]
        · rw [if_neg hc] at h
          simp [collapsedB, hc, h.1]
    | cons d l3 =>
      simp only [List.cons_append, collapsedB, Bool.and_eq_true] at h
      have h2 : collapsedB (d :: l3) = true := ih (by simpa using h.2)
      simp only [collapsedB, Bool.and_eq_true]
      exact ⟨h.1, h2⟩

theorem pyRstrip_append (l : List Char) :
    l = pyRstrip l ++ (l.reverse.takeWhile wsChar).reverse := by
  have h := @List.takeWhile_append_dropWhile Char wsChar l.reverse
  calc l = l.reverse.reverse := (List.reverse_reverse l).symm
    _ = (l.reverse.takeWhile wsChar ++ l.reverse.dropWhile wsChar).reverse := by rw [h]
    _ = (l.reverse.dropWhile wsChar).reverse ++ (l.reverse.takeWhile wsChar).reverse := by
        rw [List.reverse_append]
    _ = pyRstrip l ++ (l.reverse.takeWhile wsChar).reverse := rfl

theorem headNotWs_pyRstrip (l : List Char) (h : headNotWs l = true) :
    headNotWs (pyRstrip l) = true := by
  have hd := pyRstrip_append l
  cases hr : pyRstrip l with
  | nil => rfl
  | cons c rest =>
    rw [hr] at hd
    rw [hd] at h
    simpa [headNotWs] using h

theorem collapsedB_pyRstrip (l : List Char) (h : collapsedB l = true) :
    collapsedB (pyRstrip l) = true := by
  have hd := pyRstrip_append l
  exact collapsedB_append_left _ _ (hd ▸ h)

theorem pyLstrip_of_headNotWs (l : List Char) (h : headNotWs l = true) :
    pyLstrip l = l := by
  cases l with
  | nil => rfl
  | cons c cs =>
    simp only [headNotWs, Bool.not_eq_true'] at h
    unfold pyLstrip
    rw [List.dropWhile_cons_of_neg (by simp [h])]

theorem pyRstrip_of_revHeadNotWs (l : List Char) (h : headNotWs l.reverse = true) :
    pyRstrip l = l := by
  have e : l.reverse.dropWhile wsChar = l.reverse := pyLstrip_of_headNotWs l.reverse h
  unfold pyRstrip
  rw [e, List.reverse_reverse]

theorem headNotWs_reverse_pyRstrip (l : List Char) :
    headNotWs (pyRstrip l).reverse = true := by
  unfold pyRstrip
  rw [List.reverse_reverse]
  exact headNotWs_dropWhile _

theorem filter_collapseWs (b : Bool) (l : List Char) :
    (collapseWs b l).filter (fun c => !wsChar c) = l.filter (fun c => !wsChar c) := by
  induction l generalizing b with
  | nil => cases b <;> rfl
  | cons c cs ih =>
    cases hw : wsChar c with
    | true =>
      cases b with
      | true =>
        rw [collapseWs_cons_ws_true hw]
        simp [List.filter_cons, hw, ih true]
      | false =>
        rw [collapseWs_cons_ws_false hw]
        simp [List.filter_cons, hw, wsChar_space, ih true]
    | false =>
      rw [collapseWs_cons_not_ws hw]
      simp [List.filter_cons, hw, ih false]

theorem filter_dropWhile_wsChar (l : List Char) :
    (l.dropWhile wsChar).filter (fun c => !wsChar c) =
      l.filter (fun c => !wsChar c) := by
  induction l with
  | nil => rfl
  | cons c cs ih =>
    cases hw : wsChar c with
    | true =>
      rw [List.dropWhile_cons_of_pos hw]
      simp [List.filter_cons, hw, ih]
    | false =>
      rw [List.dropWhile_cons_of_neg (by simp [hw])]

theorem filter_pyRstrip (l : List Char) :
    (pyRstrip l).filter (fun c => !wsChar c) = l.filter (fun c => !wsChar c) := by
  unfold pyRstrip
  rw [List.filter_reverse, filter_dropWhile_wsChar, List.filter_reverse,
    List.reverse_reverse]

/-- C6: the normalisation of line 41 is idempotent; its output contains
whitespace only as single interior spaces separating non-whitespace text
(`collapsedB`), is trimmed at both ends (`headNotWs` of the characters and
of their reverse), and carries exactly the non-whitespace characters of the
input in their original order.  Totality is by construction: the model is a
Lean function on all of `String`. -/
theorem c6_normalize_ws_idempotent (s : String) :
    normalize_ws (normalize_ws s) = normalize_ws s ∧
    collapsedB (normalize_ws s).data = true ∧
    headNotWs (normalize_ws s).data = true ∧
    headNotWs (normalize_ws s).data.reverse = true ∧
    (normalize_ws s).data.filter (fun c => !wsChar c) =
      s.data.filter (fun c => !wsChar c) := by
  have hcoll : collapsedB (collapseWs false s.data) = true :=
    collapsedB_collapseWs false s.data
  have h1 : collapsedB (pyLstrip (collapseWs false s.data)) = true :=
    collapsedB_dropWhile _ _ hcoll
  have h1h : headNotWs (pyLstrip (collapseWs false s.data)) = true :=
    headNotWs_dropWhile _
  have h2 : collapsedB (pyStrip (collapseWs false s.data)) = true :=
    collapsedB_pyRstrip _ h1
  have h2h : headNotWs (pyStrip (collapseWs false s.data)) = true :=
    headNotWs_pyRstrip _ h1h
  have h2r : headNotWs (pyStrip (collapseWs false s.data)).reverse = true :=
    headNotWs_reverse_pyRstrip _
  refine ⟨?_, h2, h2h, h2r, ?_⟩
  · have key : pyStrip (collapseWs false (pyStrip (collapseWs false s.data))) =
        pyStrip (collapseWs false s.data) := by
      rw [(collapseWs_of_collapsed _).1 h2]
      show pyRstrip (pyLstrip (pyStrip (collapseWs false s.data))) = _
      rw [pyLstrip_of_headNotWs _ h2h, pyRstrip_of_revHeadNotWs _ h2r]
    exact congrArg String.mk key
  · show (pyStrip (collapseWs false s.data)).filter (fun c => !wsChar c) = _
    unfold pyStrip pyLstrip
    rw [filter_pyRstrip, filter_dropWhile_wsChar, filter_collapseWs]

/-! ## C4 and C5: defensive parsing of model output -/

theorem replaceCore_of_no_occurrence (pat repl : List Char) (fuel : Nat)
    (l : List Char) (h : ¬ pat <:+: l) : replaceCore pat repl fuel l = l := by
  induction l generalizing fuel with
  | nil => cases fuel <;> rfl
  | cons c cs ih =>
    cases fuel with
    | zero => rfl
    | succ f =>
      have hnp : pat.isPrefixOf (c :: cs) = false := by
        cases hpp : pat.isPrefixOf (c :: cs) with
        | false => rfl
        | true => exact absurd (List.isPrefixOf_iff_prefix.mp hpp).isInfix h
      have hcs : ¬ pat <:+: cs := fun hin => h (List.infix_cons hin)
      simp [replaceCore, hnp, ih f hcs]

theorem pyReplace_of_no_occurrence (s pat repl : String)
    (h : ¬ pat.data <:+: s.data) : pyReplace s pat repl = s := by
  by_cases he : pat.data.isEmpty
  · simp [pyReplace, he]
  · simp only [pyReplace, he, if_false]
    rw [replaceCore_of_no_occurrence pat.data repl.data s.data.length s.data h]
    simp

theorem pyClean_of_no_fence (s : String)
    (h : ¬ ("```" : String).data <:+: s.data) : pyClean s = s := by
  have h7 : ¬ ("```json" : String).data <:+: s.data := by
    intro hin
    exact h (List.IsInfix.trans ⟨[], ['j', 's', 'o', 'n'], rfl⟩ hin)
  unfold pyClean
  rw [pyReplace_of_no_occurrence s _ _ h7]
  exact pyReplace_of_no_occurrence s _ _ h

/-- C4: when the fence-cleaned output fails to parse as JSON, the extraction
site (lines 110–116) falls back to `{"raw_text": <the raw output>}` and the
matching site (lines 132–137) to `{"score": 0, "analysis": "AI Parsing
Error"}`; no error escapes (both sanitisers are total functions), and with
the cache disabled the request completes with a response for any document and
job description. -/
theorem c4_parse_failure_fallback (s : String)
    (h : json_loads (pyClean s) = none) :
    sanitize_extract (some s) = Json.obj [("raw_text", Json.str s)] ∧
    sanitize_match (some s) =
      Json.obj [("score", Json.num 0), ("analysis", Json.str "AI Parsing Error")] ∧
    ∀ text jd : String, ∃ r,
      analyze_core none (fun _ => some s) text jd = Except.ok r := by
  refine ⟨?_, ?_, fun text jd => ⟨_, rfl⟩⟩
  · show (match json_loads (pyClean s) with
      | some v => v
      | none => Json.obj [("raw_text", Json.str s)]) = _
    rw [h]
  · show (match json_loads (pyClean s) with
      | some v => v
      | none =>
        Json.obj [("score", Json.num 0), ("analysis", Json.str "AI Parsing Error")]) = _
    rw [h]

/-- C4 witness: the theorem at the unparseable output `"not json"`. -/
theorem c4_parse_failure_fallback_witness :
    sanitize_extract (some "not json") = Json.obj [("raw_text", Json.str "not json")] ∧
    sanitize_match (some "not json") =
      Json.obj [("score", Json.num 0), ("analysis", Json.str "AI Parsing Error")] ∧
    ∀ text jd : String, ∃ r,
      analyze_core none (fun _ => some "not json") text jd = Except.ok r :=
  c4_parse_failure_fallback "not json" rfl

/-- C5 counterexample: on the valid JSON input `{"a": "x```y"}` — fence text
inside a string, no wrapping delimiters — the cleaning of lines 113 and 134
(`str.replace`, which substitutes everywhere, not only at the ends) deletes
the fence characters inside the string and the call site returns an altered
payload, refuting the clause that such input comes back unaltered. -/
theorem c5_fence_inside_string_is_altered :
    json_loads "\x7b\"a\": \"x```y\"\x7d" =
      some (Json.obj [("a", Json.str "x```y")]) ∧
    sanitize_extract (some "\x7b\"a\": \"x```y\"\x7d") =
      Json.obj [("a", Json.str "xy")] ∧
    Json.obj [("a", Json.str "xy")] ≠ Json.obj [("a", Json.str "x```y")] := by
  refine ⟨rfl, rfl, ?_⟩
  intro h
  injection h with h1
  injection h1 with h2 h3
  injection h2 with h4 h5
  injection h5 with h6
  exact absurd h6 (by decide)

/-- C5 (amended): the cleaning removes every occurrence of "```json" and then
"```" anywhere in the raw text (not only as wrapping delimiters), and the
parse result is returned with no schema validation; in particular, when the
raw output contains no fence substring at all and is valid JSON — whether or
not it conforms to the call-site schema — both call sites return exactly the
parsed value, and otherwise the schema-specific fallback is produced. -/
theorem c5_no_fence_valid_json_parsed_exactly (s : String) (v : Json)
    (hf : ¬ ("```" : String).data <:+: s.data) (hp : json_loads s = some v) :
    sanitize_extract (some s) = v ∧ sanitize_match (some s) = v := by
  have hc : pyClean s = s := pyClean_of_no_fence s hf
  constructor
  · show (match json_loads (pyClean s) with
      | some v => v
      | none => Json.obj [("raw_text", Json.str s)]) = _
    rw [hc, hp]
  · show (match json_loads (pyClean s) with
      | some v => v
      | none =>
        Json.obj [("score", Json.num 0), ("analysis", Json.str "AI Parsing Error")]) = _
    rw [hc, hp]

/-- C5 witness: the amended theorem at the fence-free schema-shaped input
`{"name": "Jane"}`. -/
theorem c5_no_fence_valid_json_parsed_exactly_witness :
    sanitize_extract (some "\x7b\"name\": \"Jane\"\x7d") =
      Json.obj [("name", Json.str "Jane")] ∧
    sanitize_match (some "\x7b\"name\": \"Jane\"\x7d") =
      Json.obj [("name", Json.str "Jane")] :=
  c5_no_fence_valid_json_parsed_exactly "\x7b\"name\": \"Jane\"\x7d"
    (Json.obj [("name", Json.str "Jane")]) (by decide) rfl

/-! ## Pipeline evaluation lemmas -/

theorem analyze_miss_none (ai : String → Option String) (t jd key : String) :
    analyze_miss none ai t jd key = Except.ok
      (Json.obj [("resume_text_preview", Json.str (pyTake 200 t)),
        ("extracted_info", sanitize_extract (ai (mkExtractPrompt t))),
        ("match_result",
          if jd ≠ "" then sanitize_match (ai (mkMatchPrompt t jd)) else Json.obj [])],
       mkExtractPrompt t :: (if jd ≠ "" then [mkMatchPrompt t jd] else []),
       []) := by
  by_cases hjd : jd = "" <;> simp [analyze_miss, hjd]

theorem analyze_miss_mapConn (m : String → Option String)
    (ai : String → Option String) (t jd key : String) :
    analyze_miss (some (mapConn m)) ai t jd key = Except.ok
      (Json.obj [("resume_text_preview", Json.str (pyTake 200 t)),
        ("extracted_info", sanitize_extract (ai (mkExtractPrompt t))),
        ("match_result",
          if jd ≠ "" then sanitize_match (ai (mkMatchPrompt t jd)) else Json.obj [])],
       mkExtractPrompt t :: (if jd ≠ "" then [mkMatchPrompt t jd] else []),
       [(key, 3600, json_dumps
          (Json.obj [("resume_text_preview", Json.str (pyTake 200 t)),
            ("extracted_info", sanitize_extract (ai (mkExtractPrompt t))),
            ("match_result",
              if jd ≠ "" then sanitize_match (ai (mkMatchPrompt t jd))
              else Json.obj [])]))]) := by
  by_cases hjd : jd = "" <;> simp [analyze_miss, hjd, mapConn]

theorem analyze_core_none (ai : String → Option String) (t jd : String) :
    analyze_core none ai t jd = analyze_miss none ai t jd (get_cache_key t jd) := rfl

theorem analyze_core_mapConn_miss (m : String → Option String)
    (ai : String → Option String) (t jd : String)
    (h : m (get_cache_key t jd) = none) :
    analyze_core (some (mapConn m)) ai t jd =
      analyze_miss (some (mapConn m)) ai t jd (get_cache_key t jd) := by
  simp [analyze_core, mapConn, h]

theorem analyze_core_mapConn_hit (m : String → Option String)
    (ai : String → Option String) (t jd s : String) (v : Json)
    (hs : m (get_cache_key t jd) = some s) (hne : s ≠ "")
    (hv : json_loads s = some v) :
    analyze_core (some (mapConn m)) ai t jd = Except.ok (v, [], []) := by
  simp [analyze_core, mapConn, hs, hne, hv]

/-! ## C3: cache-store availability -/

/-- C3 counterexample: with a configured client whose store is unreachable at
call time, the very first cache `get` raises, nothing in `analyze_resume`
catches it, and the request fails with an error instead of degrading to a
miss — refuting the clause covering a store "configured but unreachable at
the time of the get". -/
theorem c3_unreachable_store_raises :
    analyze_core (some unreachableConn) (fun _ => none) "resume" "" =
      Except.error PipelineError.redisError := rfl

/-- C3 (amended): when no store is configured (`r_client is None`, from
absent configuration or a failed constructor at startup) every cache
operation silently degrades — the lookup to a miss, the write to a no-op —
and the request completes; but when a client exists and its `get` raises at
call time, the exception propagates and the request fails. -/
theorem c3_disabled_cache_degrades (conn : RedisConn) (text jd : String)
    (ai : String → Option String)
    (hraise : conn.get (get_cache_key text jd) = Except.error ()) :
    (∃ r log, analyze_core none ai text jd = Except.ok (r, log, [])) ∧
    analyze_core (some conn) ai text jd = Except.error PipelineError.redisError := by
  constructor
  · exact ⟨_, _, analyze_miss_none ai text jd (get_cache_key text jd)⟩
  · simp [analyze_core, hraise]

/-- C3 witness: the amended theorem at a concrete always-raising client. -/
theorem c3_disabled_cache_degrades_witness :
    (∃ r log, analyze_core none (fun _ => none) "resume" "jd" = Except.ok (r, log, [])) ∧
    analyze_core (some unreachableConn) (fun _ => none) "resume" "jd" =
      Except.error PipelineError.redisError :=
  c3_disabled_cache_degrades unreachableConn "resume" "jd" (fun _ => none) rfl

/-! ## C7: completion failure is recovered, one attempt per prompt -/

theorem mkExtractPrompt_ne_mkMatchPrompt (t t2 jd : String) :
    mkExtractPrompt t ≠ mkMatchPrompt t2 jd := by
  intro h
  have hd : (mkExtractPrompt t).data[5]? = (mkMatchPrompt t2 jd).data[5]? := by
    rw [h]
  have e1 : (mkExtractPrompt t).data =
      extractPromptPre.data ++
        ((pyTake 2500 t).data ++ extractPromptPost.data) := by
    show ((extractPromptPre ++ pyTake 2500 t) ++ extractPromptPost).data = _
    simp [List.append_assoc]
  have e2 : (mkMatchPrompt t2 jd).data =
      matchPromptPre.data ++ ((pyTake 2000 t2).data ++ (matchPromptMid.data ++
        ((pyTake 1000 jd).data ++ matchPromptPost.data))) := by
    show ((((matchPromptPre ++ pyTake 2000 t2) ++ matchPromptMid) ++
      pyTake 1000 jd) ++ matchPromptPost).data = _
    simp [List.append_assoc]
  rw [e1, e2] at hd
  rw [List.getElem?_append, if_pos (by decide), List.getElem?_append,
    if_pos (by decide)] at hd
  exact absurd hd (by decide)

/-- C7: when the extraction completion call fails (`call_ai_service` returns
`None` on a bad status or transport fault), the request is neither aborted
nor retried: with the store unconfigured, the run completes with a full
response whose `extracted_info` is the sentinel fallback record, the prompts
attempted are exactly the extraction prompt followed — only when a job
description was supplied — by the distinct matching prompt, each once
(`Nodup`), and when the matching call also fails, `match_result` is its
error fallback record. -/
theorem c7_completion_failure_recovered (text jd : String)
    (ai : String → Option String) (hE : ai (mkExtractPrompt text) = none) :
    ∃ mr,
      analyze_core none ai text jd = Except.ok
        (Json.obj [("resume_text_preview", Json.str (pyTake 200 text)),
          ("extracted_info", Json.obj [("raw_text", Json.null)]),
          ("match_result", mr)],
         mkExtractPrompt text :: (if jd ≠ "" then [mkMatchPrompt text jd] else []),
         []) ∧
      (mkExtractPrompt text ::
        (if jd ≠ "" then [mkMatchPrompt text jd] else [])).Nodup ∧
      (jd ≠ "" → ai (mkMatchPrompt text jd) = none →
        mr = Json.obj [("score", Json.num 0),
          ("analysis", Json.str "AI Parsing Error")]) := by
  refine ⟨if jd ≠ "" then sanitize_match (ai (mkMatchPrompt text jd))
    else Json.obj [], ?_, ?_, ?_⟩
  · have h := analyze_miss_none ai text jd (get_cache_key text jd)
    rw [analyze_core_none, h, hE]
    rfl
  · by_cases hjd : jd = "" <;>
      simp [hjd, List.Nodup, mkExtractPrompt_ne_mkMatchPrompt]
  · intro hjd hM
    rw [if_pos hjd, hM]
    rfl

/-- C7 witness: the theorem at concrete inputs with a completion service
that fails on every call. -/
theorem c7_completion_failure_recovered_witness :
    ∃ mr,
      analyze_core none (fun _ => none) "resume text" "the jd" = Except.ok
        (Json.obj [("resume_text_preview", Json.str (pyTake 200 "resume text")),
          ("extracted_info", Json.obj [("raw_text", Json.null)]),
          ("match_result", mr)],
         mkExtractPrompt "resume text" ::
           (if ("the jd" : String) ≠ "" then [mkMatchPrompt "resume text" "the jd"]
            else []),
         []) ∧
      (mkExtractPrompt "resume text" ::
        (if ("the jd" : String) ≠ "" then [mkMatchPrompt "resume text" "the jd"]
         else [])).Nodup ∧
      (("the jd" : String) ≠ "" → (fun _ => none : String → Option String)
          (mkMatchPrompt "resume text" "the jd") = none →
        mr = Json.obj [("score", Json.num 0),
          ("analysis", Json.str "AI Parsing Error")]) :=
  c7_completion_failure_recovered "resume text" "the jd" (fun _ => none) rfl

/-! ## C9: empty job description -/

/-- C9 counterexample: a request with an empty job description whose derived
key is already cached makes zero completion calls, not exactly one — the hit
path returns the deserialised entry before any prompt is sent. -/
theorem c9_cached_request_zero_calls :
    analyze_core (some (mapConn (fun _ => some "\x7b\x7d"))) (fun _ => none)
      "resume" "" = Except.ok (Json.obj [], [], []) ∧
    ([] : List String).length ≠ 1 :=
  ⟨rfl, by decide⟩

/-- C9 (amended): on a cache miss (here: no configured store), an empty job
description yields exactly one completion call, the extraction call, and the
empty `match_result` record in the response; the second, matching call is
issued exactly when the job description is non-empty. -/
theorem c9_empty_jd_single_call (text jd : String) (ai : String → Option String) :
    ∃ r,
      analyze_core none ai text jd = Except.ok (r,
        (if jd = "" then [mkExtractPrompt text]
         else [mkExtractPrompt text, mkMatchPrompt text jd]), []) ∧
      (jd = "" → jsonField r "match_result" = some (Json.obj [])) := by
  by_cases hjd : jd = ""
  · subst hjd
    refine ⟨Json.obj [("resume_text_preview", Json.str (pyTake 200 text)),
      ("extracted_info", sanitize_extract (ai (mkExtractPrompt text))),
      ("match_result", Json.obj [])], ?_, fun _ => rfl⟩
    have h := analyze_miss_none ai text "" (get_cache_key text "")
    rw [analyze_core_none]
    simpa using h
  · refine ⟨Json.obj [("resume_text_preview", Json.str (pyTake 200 text)),
      ("extracted_info", sanitize_extract (ai (mkExtractPrompt text))),
      ("match_result", sanitize_match (ai (mkMatchPrompt text jd)))], ?_,
      fun he => absurd he hjd⟩
    have h := analyze_miss_none ai text jd (get_cache_key text jd)
    rw [analyze_core_none]
    simp only [hjd, ne_eq, not_false_iff, if_true, if_false] at h ⊢
    simpa [hjd] using h

/-! ## C10: a readable PDF with no extractable text -/

/-- C10: when every page of a readable PDF yields no text (extraction
returns `None` or an empty string per page), `extract_text_from_pdf` returns
the empty string rather than raising, and the pipeline proceeds normally:
the response is a success whose preview is the empty string, and the cache
write is keyed by the hash of the empty text plus the job description. -/
theorem c10_textless_pdf_proceeds (pages : List (Option String))
    (hp : ∀ p ∈ pages, p = none ∨ p = some "") :
    extract_text_from_pdf pages = "" ∧
    ∀ (jd : String) (ai : String → Option String), ∃ r log v,
      analyze_core (some (mapConn fun _ => none)) ai "" jd =
        Except.ok (r, log, [(get_cache_key "" jd, 3600, v)]) ∧
      jsonField r "resume_text_preview" = some (Json.str "") := by
  constructor
  · have hfold : ∀ acc : String, pages.foldl
        (fun acc p =>
          match p with
          | some page_text => if page_text ≠ "" then acc ++ page_text ++ "\n" else acc
          | none => acc) acc = acc := by
      induction pages with
      | nil => intro acc; rfl
      | cons p ps ih =>
        intro acc
        have hps : ∀ q ∈ ps, q = none ∨ q = some "" := fun q hq =>
          hp q (List.mem_cons_of_mem p hq)
        rcases hp p (List.mem_cons_self p ps) with h | h <;>
          · subst h
            simpa using ih hps acc
    show normalize_ws (pages.foldl _ "") = ""
    rw [hfold ""]
    rfl
  · intro jd ai
    refine ⟨Json.obj [("resume_text_preview", Json.str (pyTake 200 "")),
        ("extracted_info", sanitize_extract (ai (mkExtractPrompt ""))),
        ("match_result",
          if jd ≠ "" then sanitize_match (ai (mkMatchPrompt "" jd)) else Json.obj [])],
      mkExtractPrompt "" :: (if jd ≠ "" then [mkMatchPrompt "" jd] else []),
      json_dumps (Json.obj [("resume_text_preview", Json.str (pyTake 200 "")),
        ("extracted_info", sanitize_extract (ai (mkExtractPrompt ""))),
        ("match_result",
          if jd ≠ "" then sanitize_match (ai (mkMatchPrompt "" jd)) else Json.obj [])]),
      ?_, rfl⟩
    rw [analyze_core_mapConn_miss _ _ _ _ rfl]
    exact analyze_miss_mapConn _ _ _ _ (get_cache_key "" jd)

/-- C10 witness: the theorem at a concrete two-page PDF whose pages yield
`None` and the empty string. -/
theorem c10_textless_pdf_proceeds_witness :
    extract_text_from_pdf [none, some ""] = "" ∧
    ∀ (jd : String) (ai : String → Option String), ∃ r log v,
      analyze_core (some (mapConn fun _ => none)) ai "" jd =
        Except.ok (r, log, [(get_cache_key "" jd, 3600, v)]) ∧
      jsonField r "resume_text_preview" = some (Json.str "") :=
  c10_textless_pdf_proceeds [none, some ""] (by decide)

/-- C9 witness: the amended theorem at a concrete document and the empty job
description. -/
theorem c9_empty_jd_single_call_witness :
    ∃ r,
      analyze_core none (fun _ => none) "doc" "" = Except.ok (r,
        (if ("" : String) = "" then [mkExtractPrompt "doc"]
         else [mkExtractPrompt "doc", mkMatchPrompt "doc" ""]), []) ∧
      (("" : String) = "" → jsonField r "match_result" = some (Json.obj [])) :=
  c9_empty_jd_single_call "doc" "" (fun _ => none)

/-! ## C2: the serialisation round trip, character-level lemmas -/

theorem skipWs_cons_of_not_ws {c : Char} (h : jsonWs c = false) (l : List Char) :
    skipWs (c :: l) = c :: l := by
  unfold skipWs
  rw [List.dropWhile_cons_of_neg (by simp [h])]

theorem skipWs_cons_of_ws {c : Char} (h : jsonWs c = true) (l : List Char) :
    skipWs (c :: l) = skipWs l := by
  unfold skipWs
  rw [List.dropWhile_cons_of_pos h]

theorem isDigitChar_toNat {d : Char} (h : isDigitChar d = true) :
    48 ≤ d.toNat ∧ d.toNat ≤ 57 := by
  simp only [isDigitChar, Bool.and_eq_true, decide_eq_true_eq] at h
  exact ⟨h.1, h.2⟩

theorem digit_dispatch {d : Char} (h : isDigitChar d = true) :
    jsonWs d = false ∧ d ≠ 'n' ∧ d ≠ 't' ∧ d ≠ 'f' ∧ d ≠ '"' ∧ d ≠ '[' ∧
    d ≠ '\x7b' ∧ d ≠ '-' ∧ d ≠ ']' ∧ d ≠ '\x7d' ∧ d ≠ ',' ∧ d ≠ ':' := by
  obtain ⟨h1, h2⟩ := isDigitChar_toNat h
  constructor
  · cases hw : jsonWs d
    · rfl
    · exfalso
      have hd : d = ' ' ∨ d = '\t' ∨ d = '\n' ∨ d = '\r' := by
        simpa only [jsonWs, Bool.or_eq_true, decide_eq_true_eq, or_assoc] using hw
      rcases hd with h' | h' | h' | h' <;> (subst h'; revert h1 h2; decide)
  refine ⟨?_, ?_, ?_, ?_, ?_, ?_, ?_, ?_, ?_, ?_, ?_⟩ <;>
    · intro he
      subst he
      revert h1 h2
      decide

theorem delim_facts {rest : List Char} (hr : delimAfter rest) (d : Char)
    (hd : rest.head? = some d) :
    isDigitChar d = false ∧ d ≠ '.' ∧ d ≠ 'e' ∧ d ≠ 'E' := by
  cases rest with
  | nil => cases hd
  | cons c r =>
    injection hd with hd
    subst hd
    rcases hr with h | h | h <;> subst h <;>
      exact ⟨by decide, by decide, by decide, by decide⟩

theorem hexVal_hexDigitChar : ∀ d : Nat, d < 16 → hexVal (hexDigitChar d) = some d := by
  decide

/-- Step lemma: a closing quote ends the string body. -/
theorem parseStringRest_quote (fuel : Nat) (r : List Char) :
    parseStringRest (fuel + 1) ('"' :: r) = some ([], r) := by
  conv_lhs => unfold parseStringRest
  rw [if_pos rfl]

/-- Step lemma: a simple escape decodes through `simpleEscape`. -/
theorem parseStringRest_escape_step {e ec : Char} (he : e ≠ 'u')
    (hs : simpleEscape e = some ec) (fuel : Nat) (r : List Char) :
    parseStringRest (fuel + 1) ('\\' :: e :: r) =
      (parseStringRest fuel r).map fun p => (ec :: p.1, p.2) := by
  have hd : decodeEscape (e :: r) = some (ec, r) := by
    show (if e = 'u' then decodeUEscape r
      else (simpleEscape e).map fun ec => (ec, r)) = _
    rw [if_neg he, hs]
    rfl
  conv_lhs => unfold parseStringRest
  rw [if_neg (by decide), if_pos rfl, hd]
  rfl

/-- Step lemma: a `\uXXXX` escape below the surrogate range decodes to the
scalar value of the four hex digits. -/
theorem parseStringRest_unicode {h1 h2 h3 h4 : Char} {n : Nat}
    (hx : hex4 h1 h2 h3 h4 = some n) (hlt : n < 55296) (fuel : Nat)
    (r : List Char) :
    parseStringRest (fuel + 1) ('\\' :: 'u' :: h1 :: h2 :: h3 :: h4 :: r) =
      (parseStringRest fuel r).map fun p => (Char.ofNat n :: p.1, p.2) := by
  have hu : decodeU (h1 :: h2 :: h3 :: h4 :: r) = some (n, r) := by
    show (hex4 h1 h2 h3 h4).map (fun n => (n, r)) = some (n, r)
    rw [hx]
    rfl
  have hue : decodeUEscape (h1 :: h2 :: h3 :: h4 :: r) = some (Char.ofNat n, r) := by
    unfold decodeUEscape
    rw [hu]
    show (if (decide (n < 55296) || decide (57343 < n)) = true
      then some (Char.ofNat n, r) else _) = _
    rw [if_pos (by simp [hlt])]
  have hd : decodeEscape ('u' :: h1 :: h2 :: h3 :: h4 :: r) =
      some (Char.ofNat n, r) := by
    show (if ('u' : Char) = 'u' then decodeUEscape (h1 :: h2 :: h3 :: h4 :: r)
      else (simpleEscape 'u').map fun ec => (ec, h1 :: h2 :: h3 :: h4 :: r)) = _
    rw [if_pos rfl, hue]
  conv_lhs => unfold parseStringRest
  rw [if_neg (by decide), if_pos rfl, hd]
  rfl

/-- Step lemma: an unescaped non-control character stands for itself. -/
theorem parseStringRest_plain {c : Char} (hq : c ≠ '"') (hb : c ≠ '\\')
    (hc : ¬ c.toNat < 32) (fuel : Nat) (r : List Char) :
    parseStringRest (fuel + 1) (c :: r) =
      (parseStringRest fuel r).map fun p => (c :: p.1, p.2) := by
  conv_lhs => unfold parseStringRest
  rw [if_neg hq, if_neg hb, if_neg (by simpa using hc)]

theorem escChar_length_pos (c : Char) : 1 ≤ (escChar c).length := by
  unfold escChar
  repeat' split
  all_goals simp

theorem length_le_flatten_escape (s : List Char) :
    s.length ≤ ((s.map escChar).flatten).length := by
  induction s with
  | nil => simp
  | cons c cs ih =>
    rw [List.map_cons, List.flatten_cons, List.length_append]
    have := escChar_length_pos c
    simp only [List.length_cons]
    omega

/-- Decoding a string body written by `escChar` recovers the characters. -/
theorem parseStringRest_escape (s rest : List Char) :
    ∀ fuel, s.length + 1 ≤ fuel →
      parseStringRest fuel ((s.map escChar).flatten ++ '"' :: rest) =
        some (s, rest) := by
  induction s with
  | nil =>
    intro fuel hf
    obtain ⟨f, rfl⟩ : ∃ f, fuel = f + 1 := ⟨fuel - 1, by omega⟩
    simp only [List.map_nil, List.flatten_nil, List.nil_append]
    exact parseStringRest_quote f rest
  | cons c cs ih =>
    intro fuel hf
    obtain ⟨f, rfl⟩ : ∃ f, fuel = f + 1 := ⟨fuel - 1, by omega⟩
    have hfs : cs.length + 1 ≤ f := by
      simp only [List.length_cons] at hf
      omega
    rw [List.map_cons, List.flatten_cons, List.append_assoc]
    by_cases h1 : c = '"'
    · subst h1
      rw [show escChar '"' = ['\\', '"'] from rfl]
      rw [show (['\\', '"'] : List Char) ++ ((cs.map escChar).flatten ++ '"' :: rest) =
        '\\' :: '"' :: ((cs.map escChar).flatten ++ '"' :: rest) from rfl]
      rw [parseStringRest_escape_step (by decide)
        (by decide : simpleEscape '"' = some '"'), ih f hfs]
      rfl
    · by_cases h2 : c = '\\'
      · subst h2
        rw [show escChar '\\' = ['\\', '\\'] from rfl]
        rw [show (['\\', '\\'] : List Char) ++ ((cs.map escChar).flatten ++ '"' :: rest) =
          '\\' :: '\\' :: ((cs.map escChar).flatten ++ '"' :: rest) from rfl]
        rw [parseStringRest_escape_step (by decide)
          (by decide : simpleEscape '\\' = some '\\'), ih f hfs]
        rfl
      · by_cases h3 : c = '\n'
        · subst h3
          rw [show escChar '\n' = ['\\', 'n'] from rfl]
          rw [show (['\\', 'n'] : List Char) ++ ((cs.map escChar).flatten ++ '"' :: rest) =
            '\\' :: 'n' :: ((cs.map escChar).flatten ++ '"' :: rest) from rfl]
          rw [parseStringRest_escape_step (by decide)
            (by decide : simpleEscape 'n' = some '\n'), ih f hfs]
          rfl
        · by_cases h4 : c = '\r'
          · subst h4
            rw [show escChar '\r' = ['\\', 'r'] from rfl]
            rw [show (['\\', 'r'] : List Char) ++ ((cs.map escChar).flatten ++ '"' :: rest) =
              '\\' :: 'r' :: ((cs.map escChar).flatten ++ '"' :: rest) from rfl]
            rw [parseStringRest_escape_step (by decide)
              (by decide : simpleEscape 'r' = some '\r'), ih f hfs]
            rfl
          · by_cases h5 : c = '\t'
            · subst h5
              rw [show escChar '\t' = ['\\', 't'] from rfl]
              rw [show (['\\', 't'] : List Char) ++ ((cs.map escChar).flatten ++ '"' :: rest) =
                '\\' :: 't' :: ((cs.map escChar).flatten ++ '"' :: rest) from rfl]
              rw [parseStringRest_escape_step (by decide)
                (by decide : simpleEscape 't' = some '\t'), ih f hfs]
              rfl
            · by_cases h6 : c = '\x08'
              · subst h6
                rw [show escChar '\x08' = ['\\', 'b'] from rfl]
                rw [show (['\\', 'b'] : List Char) ++
                    ((cs.map escChar).flatten ++ '"' :: rest) =
                  '\\' :: 'b' :: ((cs.map escChar).flatten ++ '"' :: rest) from rfl]
                rw [parseStringRest_escape_step (by decide)
                  (by decide : simpleEscape 'b' = some '\x08'), ih f hfs]
                rfl
              · by_cases h7 : c = '\x0c'
                · subst h7
                  rw [show escChar '\x0c' = ['\\', 'f'] from rfl]
                  rw [show (['\\', 'f'] : List Char) ++
                      ((cs.map escChar).flatten ++ '"' :: rest) =
                    '\\' :: 'f' :: ((cs.map escChar).flatten ++ '"' :: rest) from rfl]
                  rw [parseStringRest_escape_step (by decide)
                    (by decide : simpleEscape 'f' = some '\x0c'), ih f hfs]
                  rfl
                · by_cases h8 : c.toNat < 32
                  · have e : escChar c = ['\\', 'u', '0', '0',
                        hexDigitChar (c.toNat / 16), hexDigitChar (c.toNat % 16)] := by
                      simp [escChar, h1, h2, h3, h4, h5, h6, h7, h8]
                    rw [e]
                    rw [show (['\\', 'u', '0', '0', hexDigitChar (c.toNat / 16),
                        hexDigitChar (c.toNat % 16)] : List Char) ++
                        ((cs.map escChar).flatten ++ '"' :: rest) =
                      '\\' :: 'u' :: '0' :: '0' :: hexDigitChar (c.toNat / 16) ::
                        hexDigitChar (c.toNat % 16) ::
                        ((cs.map escChar).flatten ++ '"' :: rest) from rfl]
                    have hx : hex4 '0' '0' (hexDigitChar (c.toNat / 16))
                        (hexDigitChar (c.toNat % 16)) = some c.toNat := by
                      have hx1 := hexVal_hexDigitChar (c.toNat / 16) (by omega)
                      have hx2 := hexVal_hexDigitChar (c.toNat % 16) (by omega)
                      have h0 : hexVal '0' = some 0 := by decide
                      simp only [hex4, h0, hx1, hx2, Option.bind_eq_bind,
                        Option.some_bind, Option.pure_def]
                      exact congrArg some (by omega)
                    rw [parseStringRest_unicode hx (by omega), ih f hfs]
                    rw [Char.ofNat_toNat]
                    rfl
                  · have e : escChar c = [c] := by
                      simp [escChar, h1, h2, h3, h4, h5, h6, h7, h8]
                    rw [e]
                    rw [show ([c] : List Char) ++
                        ((cs.map escChar).flatten ++ '"' :: rest) =
                      c :: ((cs.map escChar).flatten ++ '"' :: rest) from rfl]
                    rw [parseStringRest_plain h1 h2 h8, ih f hfs]
                    rfl

/-! ## C2: the decimal rendering round trip -/

theorem digitChar_facts : ∀ m : Nat, m < 10 →
    isDigitChar (Char.ofNat (48 + m)) = true ∧
    (Char.ofNat (48 + m)).toNat = 48 + m ∧
    (0 < m → Char.ofNat (48 + m) ≠ '0') := by
  decide

theorem natDigits_all_digits (n : Nat) :
    ∀ c ∈ natDigits n, isDigitChar c = true := by
  induction n using Nat.strong_induction_on with
  | _ n ih =>
    rw [natDigits]
    by_cases h : n < 10
    · rw [if_pos h]
      intro c hc
      simp only [List.mem_singleton] at hc
      subst hc
      exact (digitChar_facts n h).1
    · rw [if_neg h]
      intro c hc
      rw [List.mem_append] at hc
      rcases hc with hc | hc
      · exact ih (n / 10) (Nat.div_lt_self (by omega) (by omega)) c hc
      · simp only [List.mem_singleton] at hc
        subst hc
        exact (digitChar_facts (n % 10) (Nat.mod_lt _ (by omega))).1

theorem natDigits_head (n : Nat) :
    ∃ d ds, natDigits n = d :: ds ∧ isDigitChar d = true ∧ (n ≠ 0 → d ≠ '0') := by
  induction n using Nat.strong_induction_on with
  | _ n ih =>
    rw [natDigits]
    by_cases h : n < 10
    · rw [if_pos h]
      exact ⟨Char.ofNat (48 + n), [], rfl, (digitChar_facts n h).1,
        fun hn => (digitChar_facts n h).2.2 (by omega)⟩
    · rw [if_neg h]
      obtain ⟨d, ds, hd, hdig, hne⟩ :=
        ih (n / 10) (Nat.div_lt_self (by omega) (by omega))
      rw [hd]
      exact ⟨d, ds ++ [Char.ofNat (48 + n % 10)], rfl, hdig,
        fun _ => hne (by omega)⟩

theorem digitsVal_natDigits (n : Nat) : digitsVal (natDigits n) = n := by
  induction n using Nat.strong_induction_on with
  | _ n ih =>
    rw [natDigits]
    by_cases h : n < 10
    · rw [if_pos h]
      show digitsVal [Char.ofNat (48 + n)] = n
      unfold digitsVal
      simp only [List.foldl_cons, List.foldl_nil]
      rw [(digitChar_facts n h).2.1]
      omega
    · rw [if_neg h]
      unfold digitsVal
      rw [List.foldl_append]
      have hrec := ih (n / 10) (Nat.div_lt_self (by omega) (by omega))
      unfold digitsVal at hrec
      simp only [List.foldl_cons, List.foldl_nil]
      rw [hrec, (digitChar_facts (n % 10) (Nat.mod_lt _ (by omega))).2.1]
      omega

theorem takeWhile_dropWhile_append {p : Char → Bool} (l rest : List Char)
    (hl : ∀ c ∈ l, p c = true)
    (hr : ∀ d, rest.head? = some d → p d = false) :
    (l ++ rest).takeWhile p = l ∧ (l ++ rest).dropWhile p = rest := by
  induction l with
  | nil =>
    simp only [List.nil_append]
    cases rest with
    | nil => exact ⟨rfl, rfl⟩
    | cons d r2 =>
      have hd := hr d rfl
      exact ⟨by rw [List.takeWhile_cons_of_neg (by simp [hd])],
        by rw [List.dropWhile_cons_of_neg (by simp [hd])]⟩
  | cons c l2 ih =>
    have hc := hl c (List.mem_cons_self c l2)
    obtain ⟨h1, h2⟩ := ih fun x hx => hl x (List.mem_cons_of_mem c hx)
    exact ⟨by rw [List.cons_append, List.takeWhile_cons_of_pos hc, h1],
      by rw [List.cons_append, List.dropWhile_cons_of_pos hc, h2]⟩

theorem parseNatPart_natDigits (n : Nat) (rest : List Char)
    (hr : delimAfter rest) :
    parseNatPart (natDigits n ++ rest) = some (n, rest) := by
  have hno : numContinues rest = false := by
    cases rest with
    | nil => rfl
    | cons d r2 =>
      obtain ⟨f1, f2, f3, f4⟩ := delim_facts hr d rfl
      simp [numContinues, f1, f2, f3, f4]
  have hfl : floatContinues rest = false := by
    cases rest with
    | nil => rfl
    | cons d r2 =>
      obtain ⟨f1, f2, f3, f4⟩ := delim_facts hr d rfl
      simp [floatContinues, f2, f3, f4]
  have hrd : ∀ d, rest.head? = some d → isDigitChar d = false := fun d hd =>
    (delim_facts hr d hd).1
  by_cases h0 : n = 0
  · subst h0
    have h00 : natDigits 0 = ['0'] := by
      rw [natDigits]
      rfl
    rw [h00]
    show parseNatPart ('0' :: rest) = some (0, rest)
    unfold parseNatPart
    simp only [headTail, Option.some_bind, if_true]
    rw [hno]
    rfl
  · obtain ⟨d, ds, hd, hdig, hne⟩ := natDigits_head n
    obtain ⟨htake, hdrop⟩ := takeWhile_dropWhile_append (natDigits n) rest
      (natDigits_all_digits n) hrd
    rw [hd] at htake hdrop ⊢
    rw [List.cons_append]
    unfold parseNatPart
    simp only [headTail, Option.some_bind]
    rw [if_neg (hne h0), if_pos hdig, ← List.cons_append, hdrop, htake, hfl,
      ← hd, digitsVal_natDigits n]
    rfl

theorem parseNumber_intDigits (k : Int) (rest : List Char)
    (hr : delimAfter rest) :
    parseNumber (intDigits k ++ rest) = some (Json.num k, rest) := by
  by_cases hk : k < 0
  · rw [show intDigits k = '-' :: natDigits k.natAbs from by
      unfold intDigits
      rw [if_pos hk]]
    rw [List.cons_append]
    unfold parseNumber
    simp only [headTail, Option.some_bind, if_true]
    rw [parseNatPart_natDigits k.natAbs rest hr, Option.map_some',
      show -((k.natAbs : Nat) : Int) = k from by omega]
  · rw [show intDigits k = natDigits k.toNat from by
      unfold intDigits
      rw [if_neg hk]]
    obtain ⟨d, ds, hd, hdig, _⟩ := natDigits_head k.toNat
    rw [hd, List.cons_append]
    unfold parseNumber
    simp only [headTail, Option.some_bind]
    rw [if_neg (digit_dispatch hdig).2.2.2.2.2.2.2.1, ← List.cons_append, ← hd,
      parseNatPart_natDigits k.toNat rest hr, Option.map_some',
      show ((k.toNat : Nat) : Int) = k from by omega]

/-! ## C2: the value-level round trip -/

theorem jfuel_pos (v : Json) : 1 ≤ jfuel v := by
  cases v with
  | null => simp [jfuel]
  | bool b => simp [jfuel]
  | num n => simp [jfuel]
  | str s => simp [jfuel]
  | arr xs => cases xs <;> simp [jfuel]
  | obj kvs => cases kvs <;> simp [jfuel]

theorem dumpsVal_head_ok (v : Json) :
    ∃ c cs, dumpsVal v = c :: cs ∧ jsonWs c = false ∧ c ≠ ']' := by
  cases v with
  | null => exact ⟨'n', ['u', 'l', 'l'], by simp [dumpsVal], by decide, by decide⟩
  | bool b =>
    cases b
    · exact ⟨'f', ['a', 'l', 's', 'e'], by simp [dumpsVal], by decide, by decide⟩
    · exact ⟨'t', ['r', 'u', 'e'], by simp [dumpsVal], by decide, by decide⟩
  | num k =>
    by_cases hk : k < 0
    · refine ⟨'-', natDigits k.natAbs, ?_, by decide, by decide⟩
      rw [show dumpsVal (Json.num k) = intDigits k from by simp [dumpsVal]]
      unfold intDigits
      rw [if_pos hk]
    · obtain ⟨d, ds, hd, hdig, _⟩ := natDigits_head k.toNat
      obtain ⟨hws, _, _, _, _, _, _, _, hbr, _, _, _⟩ := digit_dispatch hdig
      refine ⟨d, ds, ?_, hws, hbr⟩
      rw [show dumpsVal (Json.num k) = intDigits k from by simp [dumpsVal]]
      unfold intDigits
      rw [if_neg hk, hd]
  | str s =>
    exact ⟨'"', (s.data.map escChar).flatten ++ ['"'],
      by simp [dumpsVal, dumpsString], by decide, by decide⟩
  | arr xs =>
    cases xs with
    | nil => exact ⟨'[', [']'], by simp [dumpsVal], by decide, by decide⟩
    | cons x xs =>
      exact ⟨'[', dumpsVal x ++ dumpsElems xs ++ [']'], by simp [dumpsVal],
        by decide, by decide⟩
  | obj kvs =>
    cases kvs with
    | nil => exact ⟨'\x7b', ['\x7d'], by simp [dumpsVal], by decide, by decide⟩
    | cons kv kvs =>
      exact ⟨'\x7b', dumpsMember kv ++ dumpsMembers kvs ++ ['\x7d'],
        by simp [dumpsVal], by decide, by decide⟩

theorem delimAfter_elems (xs : List Json) (rest : List Char) :
    delimAfter (dumpsElems xs ++ ']' :: rest) := by
  cases xs with
  | nil =>
    rw [show dumpsElems ([] : List Json) = [] from by simp [dumpsElems],
      List.nil_append]
    exact Or.inr (Or.inl rfl)
  | cons y ys =>
    rw [show dumpsElems (y :: ys) = ',' :: ' ' :: (dumpsVal y ++ dumpsElems ys)
      from by simp [dumpsElems], List.cons_append]
    exact Or.inl rfl

theorem delimAfter_members (kvs : List (String × Json)) (rest : List Char) :
    delimAfter (dumpsMembers kvs ++ '\x7d' :: rest) := by
  cases kvs with
  | nil =>
    rw [show dumpsMembers ([] : List (String × Json)) = [] from by
      simp [dumpsMembers], List.nil_append]
    exact Or.inr (Or.inr rfl)
  | cons kv2 kvs2 =>
    rw [show dumpsMembers (kv2 :: kvs2) =
        ',' :: ' ' :: (dumpsMember kv2 ++ dumpsMembers kvs2) from by
      simp [dumpsMembers], List.cons_append]
    exact Or.inl rfl

theorem dumpsMember_shape (kv : String × Json) :
    dumpsMember kv = '"' :: ((kv.1.data.map escChar).flatten ++
      ('"' :: (':' :: ' ' :: dumpsVal kv.2))) := by
  obtain ⟨k, v⟩ := kv
  rw [show dumpsMember (k, v) = dumpsString k ++ ':' :: ' ' :: dumpsVal v from by
    simp [dumpsMember]]
  unfold dumpsString
  simp only [List.cons_append, List.append_assoc, List.singleton_append,
    List.nil_append]

theorem parseValue_cons_space (fuel : Nat) (l : List Char) :
    parseValue fuel (' ' :: l) = parseValue fuel l := by
  cases fuel with
  | zero => rfl
  | succ f =>
    conv_lhs => unfold parseValue
    conv_rhs => unfold parseValue
    rw [skipWs_cons_of_ws (by decide)]

theorem parseElems_cons_space (fuel : Nat) (l : List Char) :
    parseElems fuel (' ' :: l) = parseElems fuel l := by
  cases fuel with
  | zero => rfl
  | succ f =>
    conv_lhs => unfold parseElems
    conv_rhs => unfold parseElems
    rw [parseValue_cons_space]

theorem parseMembers_cons_space (fuel : Nat) (l : List Char) :
    parseMembers fuel (' ' :: l) = parseMembers fuel l := by
  cases fuel with
  | zero => rfl
  | succ f =>
    conv_lhs => unfold parseMembers
    conv_rhs => unfold parseMembers
    rw [skipWs_cons_of_ws (by decide)]

/-- One induction on the fuel establishing simultaneously that `parseValue`,
`parseMembers` and `parseElems` read back what the printer wrote, leaving a
delimiter-headed tail intact. -/
theorem roundtrip_fuel (fuel : Nat) :
    (∀ v rest, jfuel v ≤ fuel → delimAfter rest →
      parseValue fuel (dumpsVal v ++ rest) = some (v, rest)) ∧
    (∀ kv kvs rest, jfuelMembers (kv :: kvs) ≤ fuel → delimAfter rest →
      parseMembers fuel
        (dumpsMember kv ++ (dumpsMembers kvs ++ ('\x7d' :: rest))) =
        some (kv :: kvs, rest)) ∧
    (∀ x xs rest, jfuelElems (x :: xs) ≤ fuel → delimAfter rest →
      parseElems fuel (dumpsVal x ++ (dumpsElems xs ++ (']' :: rest))) =
        some (x :: xs, rest)) := by
  induction fuel with
  | zero =>
    refine ⟨fun v rest hf hr => absurd hf (by have := jfuel_pos v; omega),
      fun kv kvs rest hf hr => absurd hf (by
        obtain ⟨k, w⟩ := kv
        simp only [jfuelMembers]
        omega),
      fun x xs rest hf hr => absurd hf (by
        simp only [jfuelElems]
        omega)⟩
  | succ f ih =>
    obtain ⟨ihV, ihM, ihE⟩ := ih
    refine ⟨?_, ?_, ?_⟩
    · intro v rest hf hr
      cases v with
      | null =>
        rw [show dumpsVal Json.null = ['n', 'u', 'l', 'l'] from by
          simp [dumpsVal], List.cons_append]
        conv_lhs => unfold parseValue
        rw [skipWs_cons_of_not_ws (by decide)]
        rfl
      | bool b =>
        cases b
        · rw [show dumpsVal (Json.bool false) = ['f', 'a', 'l', 's', 'e'] from by
            simp [dumpsVal], List.cons_append]
          conv_lhs => unfold parseValue
          rw [skipWs_cons_of_not_ws (by decide)]
          rfl
        · rw [show dumpsVal (Json.bool true) = ['t', 'r', 'u', 'e'] from by
            simp [dumpsVal], List.cons_append]
          conv_lhs => unfold parseValue
          rw [skipWs_cons_of_not_ws (by decide)]
          rfl
      | num k =>
        rw [show dumpsVal (Json.num k) = intDigits k from by simp [dumpsVal]]
        by_cases hk : k < 0
        · rw [show intDigits k = '-' :: natDigits k.natAbs from by
            unfold intDigits
            rw [if_pos hk]]
          rw [List.cons_append]
          conv_lhs => unfold parseValue
          rw [skipWs_cons_of_not_ws (by decide)]
          simp only [headTail, Option.some_bind, reduceIte]
          rw [← List.cons_append,
            show ('-' :: natDigits k.natAbs : List Char) = intDigits k from by
              unfold intDigits
              rw [if_pos hk],
            parseNumber_intDigits k rest hr]
          rfl
        · obtain ⟨d, ds, hd, hdig, _⟩ := natDigits_head k.toNat
          obtain ⟨hws, hn, ht, hff, hq, hbk, hbc, _, _, _, _, _⟩ :=
            digit_dispatch hdig
          rw [show intDigits k = natDigits k.toNat from by
            unfold intDigits
            rw [if_neg hk], hd, List.cons_append]
          conv_lhs => unfold parseValue
          rw [skipWs_cons_of_not_ws hws]
          simp only [headTail, Option.some_bind]
          rw [if_neg hn, if_neg ht, if_neg hff, if_neg hq, if_neg hbk,
            if_neg hbc, ← List.cons_append, ← hd,
            show (natDigits k.toNat : List Char) = intDigits k from by
              unfold intDigits
              rw [if_neg hk],
            parseNumber_intDigits k rest hr]
      | str s =>
        rw [show dumpsVal (Json.str s) = dumpsString s from by simp [dumpsVal]]
        unfold dumpsString
        rw [List.cons_append, List.append_assoc, List.singleton_append]
        conv_lhs => unfold parseValue
        rw [skipWs_cons_of_not_ws (by decide)]
        simp only [headTail, Option.some_bind, reduceIte]
        rw [parseStringRest_escape s.data rest _ (by
          rw [List.length_append, List.length_cons]
          have := length_le_flatten_escape s.data
          omega)]
        rfl
      | arr xs =>
        cases xs with
        | nil =>
          rw [show dumpsVal (Json.arr []) = ['[', ']'] from by simp [dumpsVal],
            List.cons_append, List.cons_append, List.nil_append]
          conv_lhs => unfold parseValue
          rw [skipWs_cons_of_not_ws (by decide)]
          rfl
        | cons x xs =>
          rw [show dumpsVal (Json.arr (x :: xs)) =
              '[' :: (dumpsVal x ++ dumpsElems xs ++ [']']) from by
            simp [dumpsVal], List.cons_append]
          rw [List.append_assoc, List.append_assoc, List.singleton_append]
          conv_lhs => unfold parseValue
          rw [skipWs_cons_of_not_ws (by decide)]
          simp only [headTail, Option.some_bind, reduceIte]
          obtain ⟨c0, cs0, h0, hws0, hbr0⟩ := dumpsVal_head_ok x
          rw [h0, List.cons_append, skipWs_cons_of_not_ws hws0]
          simp only [headTail, Option.some_bind]
          rw [if_neg hbr0, ← List.cons_append, ← h0]
          have hfe : jfuelElems (x :: xs) ≤ f := by
            have h1 : jfuel (Json.arr (x :: xs)) = 1 + jfuelElems (x :: xs) := by
              simp [jfuel]
            omega
          rw [ihE x xs rest hfe hr]
          rfl
      | obj kvs =>
        cases kvs with
        | nil =>
          rw [show dumpsVal (Json.obj []) = ['\x7b', '\x7d'] from by
            simp [dumpsVal], List.cons_append, List.cons_append, List.nil_append]
          conv_lhs => unfold parseValue
          rw [skipWs_cons_of_not_ws (by decide)]
          rfl
        | cons kv kvs =>
          rw [show dumpsVal (Json.obj (kv :: kvs)) =
              '\x7b' :: (dumpsMember kv ++ dumpsMembers kvs ++ ['\x7d']) from by
            simp [dumpsVal], List.cons_append]
          rw [List.append_assoc, List.append_assoc, List.singleton_append]
          conv_lhs => unfold parseValue
          rw [skipWs_cons_of_not_ws (by decide)]
          simp only [headTail, Option.some_bind, reduceIte]
          rw [dumpsMember_shape kv, List.cons_append,
            skipWs_cons_of_not_ws (by decide)]
          simp only [headTail, Option.some_bind, reduceIte]
          rw [← List.cons_append, ← dumpsMember_shape kv]
          have hfm : jfuelMembers (kv :: kvs) ≤ f := by
            have h1 : jfuel (Json.obj (kv :: kvs)) =
                1 + jfuelMembers (kv :: kvs) := by
              simp [jfuel]
            omega
          rw [ihM kv kvs rest hfm hr]
          rfl
    · intro kv kvs rest hf hr
      have hjv : jfuel kv.2 ≤ f := by
        have h1 : jfuelMembers (kv :: kvs) = 1 + jfuel kv.2 + jfuelMembers kvs := by
          cases kv
          simp [jfuelMembers]
        omega
      rw [dumpsMember_shape kv]
      simp only [List.cons_append, List.append_assoc]
      conv_lhs => unfold parseMembers
      rw [skipWs_cons_of_not_ws (by decide)]
      simp only [headTail, Option.some_bind, reduceIte]
      rw [parseStringRest_escape kv.1.data _ _ (by
        rw [List.length_append, List.length_cons]
        have := length_le_flatten_escape kv.1.data
        omega)]
      simp only [Option.some_bind]
      rw [skipWs_cons_of_not_ws (by decide)]
      simp only [headTail, Option.some_bind, reduceIte]
      rw [parseValue_cons_space,
        ihV kv.2 (dumpsMembers kvs ++ ('\x7d' :: rest)) hjv
          (delimAfter_members kvs rest)]
      simp only [Option.some_bind]
      cases kvs with
      | nil =>
        rw [show dumpsMembers ([] : List (String × Json)) = [] from by
          simp [dumpsMembers], List.nil_append, skipWs_cons_of_not_ws (by decide)]
        simp only [headTail, Option.some_bind, reduceIte]
        rfl
      | cons kv2 kvs2 =>
        rw [show dumpsMembers (kv2 :: kvs2) =
            ',' :: ' ' :: (dumpsMember kv2 ++ dumpsMembers kvs2) from by
          simp [dumpsMembers]]
        simp only [List.cons_append, List.append_assoc]
        rw [skipWs_cons_of_not_ws (by decide)]
        simp only [headTail, Option.some_bind, reduceIte]
        rw [parseMembers_cons_space]
        have hfm : jfuelMembers (kv2 :: kvs2) ≤ f := by
          have h1 : jfuelMembers (kv :: kv2 :: kvs2) =
              1 + jfuel kv.2 + jfuelMembers (kv2 :: kvs2) := by
            cases kv
            simp [jfuelMembers]
          omega
        rw [ihM kv2 kvs2 rest hfm hr]
        rfl
    · intro x xs rest hf hr
      have hjx : jfuel x ≤ f := by
        have h1 : jfuelElems (x :: xs) = 1 + jfuel x + jfuelElems xs := by
          simp [jfuelElems]
        omega
      conv_lhs => unfold parseElems
      rw [ihV x (dumpsElems xs ++ (']' :: rest)) hjx (delimAfter_elems xs rest)]
      simp only [Option.some_bind]
      cases xs with
      | nil =>
        rw [show dumpsElems ([] : List Json) = [] from by simp [dumpsElems],
          List.nil_append, skipWs_cons_of_not_ws (by decide)]
        simp only [headTail, Option.some_bind, reduceIte]
        rfl
      | cons y ys =>
        rw [show dumpsElems (y :: ys) = ',' :: ' ' :: (dumpsVal y ++ dumpsElems ys)
          from by simp [dumpsElems]]
        simp only [List.cons_append, List.append_assoc]
        rw [skipWs_cons_of_not_ws (by decide)]
        simp only [headTail, Option.some_bind, reduceIte]
        rw [parseElems_cons_space]
        have hfe : jfuelElems (y :: ys) ≤ f := by
          have h1 : jfuelElems (x :: y :: ys) =
              1 + jfuel x + jfuelElems (y :: ys) := by
            simp [jfuelElems]
          omega
        rw [ihE y ys rest hfe hr]
        rfl

/-- The parser reads back what `dumpsVal` wrote, leaving the rest intact. -/
theorem parseValue_dumps (v : Json) (fuel : Nat) (rest : List Char)
    (hf : jfuel v ≤ fuel) (hr : delimAfter rest) :
    parseValue fuel (dumpsVal v ++ rest) = some (v, rest) :=
  (roundtrip_fuel fuel).1 v rest hf hr

/-- Length of one serialised object member: key literal, `": "`, value. -/
theorem dumpsMember_length (k : String) (w : Json) :
    (dumpsMember (k, w)).length =
      (k.data.map escChar).flatten.length + 4 + (dumpsVal w).length := by
  rw [show dumpsMember (k, w) = '"' :: ((k.data.map escChar).flatten ++
      ('"' :: (':' :: ' ' :: dumpsVal w))) from dumpsMember_shape (k, w)]
  simp only [List.length_cons, List.length_append]
  omega

/-- The fuel estimate of each printer is covered by twice its printed
length, established for the three printers at once by induction on a
structural-size bound. -/
theorem jfuel_le_aux (n : Nat) :
    (∀ v : Json, sizeOf v ≤ n → jfuel v ≤ 2 * (dumpsVal v).length) ∧
    (∀ kvs : List (String × Json), sizeOf kvs ≤ n →
      jfuelMembers kvs ≤ 2 * (dumpsMembers kvs).length) ∧
    (∀ xs : List Json, sizeOf xs ≤ n →
      jfuelElems xs ≤ 2 * (dumpsElems xs).length) := by
  induction n with
  | zero =>
    refine ⟨fun v h => absurd h (by cases v <;> simp),
      fun kvs h => absurd h (by cases kvs <;> simp),
      fun xs h => absurd h (by cases xs <;> simp)⟩
  | succ n ih =>
    obtain ⟨ihV, ihM, ihE⟩ := ih
    refine ⟨?_, ?_, ?_⟩
    · intro v hv
      cases v with
      | null =>
        have h2 : jfuel Json.null = 1 := by simp [jfuel]
        obtain ⟨c, cs, hc, _, _⟩ := dumpsVal_head_ok Json.null
        have h3 : (dumpsVal Json.null).length = cs.length + 1 := by
          rw [hc]
          simp
        omega
      | bool b =>
        have h2 : jfuel (Json.bool b) = 1 := by simp [jfuel]
        obtain ⟨c, cs, hc, _, _⟩ := dumpsVal_head_ok (Json.bool b)
        have h3 : (dumpsVal (Json.bool b)).length = cs.length + 1 := by
          rw [hc]
          simp
        omega
      | num k =>
        have h2 : jfuel (Json.num k) = 1 := by simp [jfuel]
        obtain ⟨c, cs, hc, _, _⟩ := dumpsVal_head_ok (Json.num k)
        have h3 : (dumpsVal (Json.num k)).length = cs.length + 1 := by
          rw [hc]
          simp
        omega
      | str s =>
        have h2 : jfuel (Json.str s) = 1 := by simp [jfuel]
        obtain ⟨c, cs, hc, _, _⟩ := dumpsVal_head_ok (Json.str s)
        have h3 : (dumpsVal (Json.str s)).length = cs.length + 1 := by
          rw [hc]
          simp
        omega
      | arr xs =>
        cases xs with
        | nil =>
          have h2 : jfuel (Json.arr []) = 1 := by simp [jfuel]
          obtain ⟨c, cs, hc, _, _⟩ := dumpsVal_head_ok (Json.arr [])
          have h3 : (dumpsVal (Json.arr [])).length = cs.length + 1 := by
            rw [hc]
            simp
          omega
        | cons x xs =>
          simp only [Json.arr.sizeOf_spec, List.cons.sizeOf_spec] at hv
          have h1 := ihV x (by omega)
          have h2 := ihE xs (by omega)
          have h3 : jfuel (Json.arr (x :: xs)) = 1 + jfuelElems (x :: xs) := by
            simp [jfuel]
          have h4 : jfuelElems (x :: xs) = 1 + jfuel x + jfuelElems xs := by
            simp [jfuelElems]
          have h5 : (dumpsVal (Json.arr (x :: xs))).length =
              (dumpsVal x).length + (dumpsElems xs).length + 2 := by
            rw [show dumpsVal (Json.arr (x :: xs)) =
                '[' :: (dumpsVal x ++ dumpsElems xs ++ [']']) from by
              simp [dumpsVal]]
            simp only [List.length_cons, List.length_append,
              List.length_singleton, List.length_nil]
          omega
      | obj kvs =>
        cases kvs with
        | nil =>
          have h2 : jfuel (Json.obj []) = 1 := by simp [jfuel]
          obtain ⟨c, cs, hc, _, _⟩ := dumpsVal_head_ok (Json.obj [])
          have h3 : (dumpsVal (Json.obj [])).length = cs.length + 1 := by
            rw [hc]
            simp
          omega
        | cons kv kvs =>
          obtain ⟨k, w⟩ := kv
          simp only [Json.obj.sizeOf_spec, List.cons.sizeOf_spec,
            Prod.mk.sizeOf_spec] at hv
          have h1 := ihV w (by omega)
          have h2 := ihM kvs (by omega)
          have h3 : jfuel (Json.obj ((k, w) :: kvs)) =
              1 + jfuelMembers ((k, w) :: kvs) := by
            simp [jfuel]
          have h4 : jfuelMembers ((k, w) :: kvs) =
              1 + jfuel w + jfuelMembers kvs := by
            simp [jfuelMembers]
          have h5 : (dumpsVal (Json.obj ((k, w) :: kvs))).length =
              (dumpsMember (k, w)).length + (dumpsMembers kvs).length + 2 := by
            rw [show dumpsVal (Json.obj ((k, w) :: kvs)) =
                '\x7b' :: (dumpsMember (k, w) ++ dumpsMembers kvs ++ ['\x7d'])
              from by simp [dumpsVal]]
            simp only [List.length_cons, List.length_append,
              List.length_singleton, List.length_nil]
          have h6 := dumpsMember_length k w
          omega
    · intro kvs hkv
      cases kvs with
      | nil =>
        have h3 : jfuelMembers ([] : List (String × Json)) = 0 := by
          simp [jfuelMembers]
        omega
      | cons kv kvs =>
        obtain ⟨k, w⟩ := kv
        simp only [List.cons.sizeOf_spec, Prod.mk.sizeOf_spec] at hkv
        have h1 := ihV w (by omega)
        have h2 := ihM kvs (by omega)
        have h4 : jfuelMembers ((k, w) :: kvs) =
            1 + jfuel w + jfuelMembers kvs := by
          simp [jfuelMembers]
        have h5 : (dumpsMembers ((k, w) :: kvs)).length =
            (dumpsMember (k, w)).length + (dumpsMembers kvs).length + 2 := by
          rw [show dumpsMembers ((k, w) :: kvs) =
              ',' :: ' ' :: (dumpsMember (k, w) ++ dumpsMembers kvs) from by
            simp [dumpsMembers]]
          simp only [List.length_cons, List.length_append,
            List.length_nil]
        have h6 := dumpsMember_length k w
        omega
    · intro xs hxs
      cases xs with
      | nil =>
        have h3 : jfuelElems ([] : List Json) = 0 := by
          simp [jfuelElems]
        omega
      | cons x xs =>
        simp only [List.cons.sizeOf_spec] at hxs
        have h1 := ihV x (by omega)
        have h2 := ihE xs (by omega)
        have h4 : jfuelElems (x :: xs) = 1 + jfuel x + jfuelElems xs := by
          simp [jfuelElems]
        have h5 : (dumpsElems (x :: xs)).length =
            (dumpsVal x).length + (dumpsElems xs).length + 2 := by
          rw [show dumpsElems (x :: xs) =
              ',' :: ' ' :: (dumpsVal x ++ dumpsElems xs) from by
            simp [dumpsElems]]
          simp only [List.length_cons, List.length_append,
            List.length_nil]
        omega

/-- The document fuel given by `json_loads` covers any dumped value. -/
theorem jfuel_le_dumps (v : Json) : jfuel v ≤ 2 * (dumpsVal v).length :=
  (jfuel_le_aux (sizeOf v)).1 v (Nat.le_refl _)

/-- What the pipeline stores is never the empty string, so a stored entry is
truthy on the hit path. -/
theorem json_dumps_ne_empty (v : Json) : json_dumps v ≠ "" := by
  obtain ⟨c, cs, hc, _, _⟩ := dumpsVal_head_ok v
  intro h
  have hd : dumpsVal v = ([] : List Char) := congrArg String.data h
  rw [hc] at hd
  exact List.cons_ne_nil c cs hd

/-- Full round trip: `json.loads` recovers exactly the value that
`json.dumps` wrote to the cache. -/
theorem json_loads_dumps (v : Json) : json_loads (json_dumps v) = some v := by
  have h := parseValue_dumps v (2 * (dumpsVal v).length + 2) []
    (by have := jfuel_le_dumps v; omega) True.intro
  rw [List.append_nil] at h
  have hd : (json_dumps v).data = dumpsVal v := rfl
  unfold json_loads
  rw [hd, h]
  rfl

/-- C2: for a request whose derived key holds a stored (dumped) response,
the pipeline deserialises and returns exactly that response with zero
completion calls; and after a first run on a missing key, re-running the
pipeline with byte-identical inputs against the store updated by the first
run's writes makes zero completion calls and returns the first run's
response value. -/
theorem c2_cache_hit_idempotence (m : String → Option String)
    (ai ai2 : String → Option String) (t jd : String) :
    (∀ v : Json, m (get_cache_key t jd) = some (json_dumps v) →
      analyze_core (some (mapConn m)) ai t jd = Except.ok (v, [], [])) ∧
    (m (get_cache_key t jd) = none →
      ∃ r log puts,
        analyze_core (some (mapConn m)) ai t jd = Except.ok (r, log, puts) ∧
        analyze_core (some (mapConn (applyPuts m puts))) ai2 t jd =
          Except.ok (r, [], [])) := by
  refine ⟨fun v hv => analyze_core_mapConn_hit m ai t jd (json_dumps v) v hv
    (json_dumps_ne_empty v) (json_loads_dumps v), fun h => ?_⟩
  have h1 : analyze_core (some (mapConn m)) ai t jd =
      analyze_miss (some (mapConn m)) ai t jd (get_cache_key t jd) :=
    analyze_core_mapConn_miss m ai t jd h
  have h2 := analyze_miss_mapConn m ai t jd (get_cache_key t jd)
  refine ⟨_, _, _, h1.trans h2, ?_⟩
  exact analyze_core_mapConn_hit _ ai2 t jd _ _ (by simp [applyPuts])
    (json_dumps_ne_empty _) (json_loads_dumps _)

/-- C2 witness: a concrete first run against an empty store followed by a
byte-identical second run against the updated store. -/
theorem c2_cache_hit_idempotence_witness :
    ∃ r log puts,
      analyze_core (some (mapConn (fun _ => none))) (fun _ => none) "a" "" =
        Except.ok (r, log, puts) ∧
      analyze_core (some (mapConn (applyPuts (fun _ => none) puts)))
        (fun _ => none) "a" "" = Except.ok (r, [], []) :=
  (c2_cache_hit_idempotence (fun _ => none) (fun _ => none) (fun _ => none)
    "a" "").2 rfl

end ResumeMatcher
